import Mathlib

/-!
Verification development for the SecureDigitalWallet repository.

This file shallowly embeds the QR-verification core of the application:

* the admin-side matcher `validateQRData` and the scan handler side effect
  (`src/frontend/src/components/AdminDashboard.jsx`),
* the submission codec and bulk read
  (`src/frontend/src/utils/submissionStore.js`),
* the tolerant QR payload decoder
  (`src/frontend/src/utils/qrParser.js`),

and proves the testable properties stated in the repository's specification
against these embeddings.

Modelling conventions:

* JavaScript strings that may be `undefined` are modelled as `Option String`
  (`none` = the field is absent / `undefined`).  JavaScript `===` between two
  possibly-undefined fields is `Option` equality (`undefined === undefined`
  is `true`).
* JavaScript truthiness of a string field (`!x`) is `none` or the empty
  string.
* A JavaScript `TypeError` raised while evaluating the match predicate
  (`submission.name.toLowerCase()` when `name` is `undefined`) is modelled
  with `Except String`, the carried string being the runtime's error
  message; the `try/catch` in `validateQRData` is the `Except` handler.
* `new Date(x).getTime()` is modelled as `Option Int` (milliseconds);
  `none` stands for `NaN`, i.e. a `verifiedAt` that is absent or does not
  parse.  In JavaScript `NaN > 24` is `false`, which the embedding of the
  expiry test reproduces exactly.
-/

/-- JavaScript truthiness test for a possibly-undefined string:
`!x` is `true` for `undefined` and for the empty string. -/
def jsFalsy : Option String → Bool
  | none => true
  | some s => s = ""

/-- Whitespace as removed by `String.prototype.trim`. -/
def jsWs (c : Char) : Bool :=
  c = ' ' || c = '\t' || c = '\n' || c = '\r'

/-- Leading and trailing whitespace removal over a character list. -/
def trimChars (l : List Char) : List Char :=
  ((l.dropWhile jsWs).reverse.dropWhile jsWs).reverse

/-- Model of `s.toLowerCase().trim()` as applied to names in
`AdminDashboard.jsx` (ASCII case folding, surrounding whitespace removed). -/
def normName (s : String) : String :=
  String.mk (trimChars (s.data.map Char.toLower))

/-- The `verificationRequested` map carried by a QR payload
(`parsedData.verificationRequested`), one boolean per attribute key used by
the dashboard. -/
structure VerificationRequested where
  name : Bool
  age : Bool
  mobile : Bool
  aadhaar : Bool
  address : Bool
deriving DecidableEq, Repr

/-- A parsed QR payload (`parsedData` in `validateQRData`).  String fields
are optional because the scanned JSON may omit any of them; `verifiedAt`
is the parsed timestamp (see the module docstring for the `NaN` convention). -/
structure Payload where
  name : Option String
  dob : Option String
  aadhaar : Option String
  mobile : Option String
  username : Option String
  address : Option String
  verifiedAt : Option Int
  verificationRequested : Option VerificationRequested
deriving DecidableEq, Repr

/-- A decrypted submission as seen by the admin dashboard.  `name` is
`Option String` because a submission whose payload lacks a (string) `name`
makes `submission.name.toLowerCase()` throw in the match predicate. -/
structure Submission where
  id : Nat
  name : Option String
  dob : Option String
  aadhaar : Option String
  mobile : Option String
  username : Option String
  address : Option String
deriving DecidableEq, Repr

/-- The runtime error message produced by
`submission.name.toLowerCase()` when `name` is `undefined`. -/
def tlcError : String :=
  "Cannot read properties of undefined (reading 'toLowerCase')"

/-- Model of `parsedData.verificationRequested?.attr || false`. -/
def reqOf (p : Payload) (f : VerificationRequested → Bool) : Bool :=
  match p.verificationRequested with
  | some vr => f vr
  | none => false

/-- The five equality checks of the matching step
(`AdminDashboard.jsx` lines 170-177), in source order:
name (case-insensitive, trimmed), dob (with `'N/A'`/`'Not found'`
absent-equivalence), aadhaar, mobile, username.  Evaluating the name check
throws when the submission has no `name`. -/
def matchChecks (p : Payload) (s : Submission) : Except String (List Bool) :=
  match s.name with
  | none => .error tlcError
  | some sn =>
    let nameMatch : Bool :=
      match p.name with
      | some pn => normName sn == normName pn
      | none => false
    let dobMatch : Bool :=
      (s.dob == p.dob) ||
      ((s.dob == some "N/A") && jsFalsy p.dob) ||
      ((s.dob == some "Not found") && jsFalsy p.dob) ||
      (jsFalsy p.dob && ((s.dob == some "N/A") || (s.dob == some "Not found")))
    let aadhaarMatch : Bool := s.aadhaar == p.aadhaar
    let mobileMatch : Bool := s.mobile == p.mobile
    let usernameMatch : Bool := s.username == p.username
    .ok [nameMatch, dobMatch, aadhaarMatch, mobileMatch, usernameMatch]

/-- `[...].filter(Boolean).length` over the five checks. -/
def matchCountE (p : Payload) (s : Submission) : Except String Nat :=
  (fun l => l.countP id) <$> matchChecks p s

/-- `matchCount >= 3`: the predicate given to `submissions.find`. -/
def isMatchE (p : Payload) (s : Submission) : Except String Bool :=
  (fun c => decide (3 ≤ c)) <$> matchCountE p s

/-- `submissions.find(...)`: first submission whose match count reaches 3,
with a predicate exception propagating out of the search. -/
def findMatching (p : Payload) : List Submission → Except String (Option Submission)
  | [] => .ok none
  | s :: rest =>
    match isMatchE p s with
    | .error e => .error e
    | .ok true => .ok (some s)
    | .ok false => findMatching p rest

/-- `hoursDiff > 24` where `hoursDiff = (now - verifiedAt) / 3600000`.
With `verifiedAt` absent or unparseable the subtraction is `NaN` and
`NaN > 24` is `false`, so the payload is (silently) treated as not
expired — the embedding keeps that behaviour. -/
def isExpired (now : Int) (p : Payload) : Bool :=
  match p.verifiedAt with
  | some t => decide (24 * 3600 * 1000 < now - t)
  | none => false

/-- The five exact-value checks of the validation step
(`AdminDashboard.jsx` lines 210-217). -/
structure FieldChecks where
  nameValid : Bool
  dobValid : Bool
  aadhaarValid : Bool
  mobileValid : Bool
  usernameValid : Bool
deriving DecidableEq, Repr

/-- Computes the validation checks for the matched submission.  As in the
matching step, `matchingSubmission.name.toLowerCase()` throws if the
stored name is absent (unreachable after a successful match, but the
embedding keeps the code path). -/
def dataChecks (p : Payload) (m : Submission) : Except String FieldChecks :=
  match m.name with
  | none => .error tlcError
  | some mn =>
    let nameValid : Bool :=
      match p.name with
      | some pn => normName pn == normName mn
      | none => false
    let dobValid : Bool :=
      (p.dob == m.dob) ||
      ((m.dob == some "N/A") && jsFalsy p.dob) ||
      ((m.dob == some "Not found") && jsFalsy p.dob) ||
      (jsFalsy p.dob && ((m.dob == some "N/A") || (m.dob == some "Not found")))
    let aadhaarValid : Bool := p.aadhaar == m.aadhaar
    let mobileValid : Bool := p.mobile == m.mobile
    let usernameValid : Bool := p.username == m.username
    .ok ⟨nameValid, dobValid, aadhaarValid, mobileValid, usernameValid⟩

/-- One entry of the `attributeVerification` object. -/
structure AttrCheck where
  verified : Bool
  scanned : Option String
  stored : Option String
  requested : Bool
deriving DecidableEq, Repr

/-- The `attributeVerification` object literal (lines 236-267), as an
association list in insertion order; JavaScript `Object.entries`
enumerates exactly this order. -/
def attrList (p : Payload) (m : Submission) (cs : FieldChecks) :
    List (String × AttrCheck) :=
  [("name", ⟨cs.nameValid, p.name, m.name, reqOf p (·.name)⟩),
   ("age", ⟨cs.dobValid, p.dob, m.dob, reqOf p (·.age)⟩),
   ("mobile", ⟨cs.mobileValid, p.mobile, m.mobile, reqOf p (·.mobile)⟩),
   ("aadhaar", ⟨cs.aadhaarValid, p.aadhaar, m.aadhaar, reqOf p (·.aadhaar)⟩),
   ("address", ⟨p.address == m.address, p.address, m.address, reqOf p (·.address)⟩)]

/-- The result object of `validateQRData`.  `attributeVerification = none`
models both a `null` field and an absent field. -/
structure ValidationResult where
  isValid : Bool
  submission : Option Submission
  scannedData : Option Payload
  message : String
  attributeVerification : Option (List (String × AttrCheck))
deriving DecidableEq, Repr

/-- Message of the no-match branch. -/
def noMatchMsg : String :=
  "No matching submission found for this QR code data."

/-- Message of the expired branch. -/
def expiredMsg : String :=
  "QR code has expired. Please generate a new QR code for verification."

/-- Message of the fully-valid branch. -/
def verifiedMsg : String :=
  "QR code data matches the submission records. User identity verified!"

/-- Message of the discrepancy branch. -/
def discrepancyMsg : String :=
  "QR code found matching user but some data discrepancies detected."

/-- The result returned when no submission reaches the 3-of-5 threshold. -/
def noMatchResult (p : Payload) : ValidationResult :=
  ⟨false, none, some p, noMatchMsg, none⟩

/-- The result returned for a matched but expired payload: the matched
submission is carried in the result, `attributeVerification` is `null`. -/
def expiredResult (p : Payload) (m : Submission) : ValidationResult :=
  ⟨false, some m, some p, expiredMsg, none⟩

/-- Whether all five validation checks hold (`isDataValid`). -/
def allValid (cs : FieldChecks) : Bool :=
  cs.nameValid && cs.dobValid && cs.aadhaarValid && cs.mobileValid && cs.usernameValid

/-- The result returned for a matched, unexpired payload. -/
def matchedResult (p : Payload) (m : Submission) (cs : FieldChecks) : ValidationResult :=
  ⟨allValid cs, some m, some p,
    if allValid cs then verifiedMsg else discrepancyMsg,
    some (attrList p m cs)⟩

/-- Substring containment over character lists (model of
`String.prototype.includes`). -/
def seqContains : List Char → List Char → Bool
  | l, [] =>
    match l with
    | _ => true
  | [], _ :: _ => false
  | c :: r, pat => (List.isPrefixOf pat (c :: r)) || seqContains r pat

/-- The catch-branch message categorisation (lines 281-288). -/
def errMessageFor (e : String) : String :=
  if seqContains e.toList "Unexpected token".toList then
    "Invalid QR code format. The QR code does not contain valid JSON data."
  else if seqContains e.toList "No data parameter".toList then
    "Invalid QR code format. The QR code URL does not contain a data parameter."
  else
    "Invalid QR code format. Parse error: " ++ e

/-- The result built in the catch branch: no submission, no scanned data. -/
def errorResult (e : String) : ValidationResult :=
  ⟨false, none, none, errMessageFor e, none⟩

/-- The body of `validateQRData` after parsing, as an exception-transparent
computation: find a match, test expiry, validate fields. -/
def validateQRDataE (now : Int) (p : Payload) (subs : List Submission) :
    Except String ValidationResult :=
  match findMatching p subs with
  | .error e => .error e
  | .ok none => .ok (noMatchResult p)
  | .ok (some m) =>
    if isExpired now p then .ok (expiredResult p m)
    else
      match dataChecks p m with
      | .error e => .error e
      | .ok cs => .ok (matchedResult p m cs)

/-- `validateQRData` on an already-parsed payload: the surrounding
`try/catch` converts any exception from the matching machinery into the
generic failure result. -/
def validateQRData (now : Int) (p : Payload) (subs : List Submission) :
    ValidationResult :=
  match validateQRDataE now p subs with
  | .ok r => r
  | .error e => errorResult e

/-- The side effect of `handleQRScan` (lines 324-327): the id passed to
`updateSubmissionStatus(·, 'verified')`, or `none` when no automatic
status change happens. -/
def scanStatusUpdate (r : ValidationResult) : Option Nat :=
  match r.submission with
  | some s => if r.isValid then some s.id else none
  | none => none

/-- The dashboard's display filter over the verification entries
(`Object.entries(...).filter(([, details]) => details.requested)`). -/
def displayedAttrs (l : List (String × AttrCheck)) : List (String × AttrCheck) :=
  l.filter (fun e => e.2.requested)

/-! ### Characterisation of the matching step -/

/-- `s` is the first submission of `subs` (in list order) whose match count
reaches the 3-of-5 threshold, every submission before it scoring below 3. -/
def selectedFirst (p : Payload) (subs : List Submission) (s : Submission) : Prop :=
  ∃ pre post, subs = pre ++ s :: post ∧
    (∃ c, matchCountE p s = .ok c ∧ 3 ≤ c) ∧
    (∀ x ∈ pre, ∃ c, matchCountE p x = .ok c ∧ c < 3)

theorem matchCountE_ok_of_name {p : Payload} {x : Submission}
    (h : x.name.isSome) : ∃ c, matchCountE p x = .ok c := by
  cases hx : x.name with
  | none => rw [hx] at h; simp at h
  | some sn => exact ⟨_, by unfold matchCountE matchChecks; rw [hx]; rfl⟩

theorem isMatchE_of_count {p : Payload} {x : Submission} {c : Nat}
    (h : matchCountE p x = .ok c) : isMatchE p x = .ok (decide (3 ≤ c)) := by
  simp [isMatchE, h]

theorem findMatching_iff (p : Payload) (subs : List Submission) (s : Submission)
    (h : ∀ x ∈ subs, x.name.isSome) :
    findMatching p subs = .ok (some s) ↔ selectedFirst p subs s := by
  induction subs with
  | nil =>
    simp only [findMatching, selectedFirst]
    constructor
    · intro hc; cases hc
    · rintro ⟨pre, post, habs, -⟩
      exact absurd habs (by simp)
  | cons a rest ih =>
    obtain ⟨c, hc⟩ := matchCountE_ok_of_name (p := p) (h a (by simp))
    have hrest : ∀ x ∈ rest, x.name.isSome := fun x hx => h x (by simp [hx])
    by_cases h3 : 3 ≤ c
    · have hm : isMatchE p a = .ok true := by
        rw [isMatchE_of_count hc, decide_eq_true h3]
      constructor
      · intro hfind
        rw [findMatching, hm] at hfind
        have : a = s := by simpa using hfind
        subst this
        exact ⟨[], rest, rfl, ⟨c, hc, h3⟩, by simp⟩
      · rintro ⟨pre, post, heq, ⟨cs, hcs, hcs3⟩, hpre⟩
        cases pre with
        | nil =>
          simp only [List.nil_append, List.cons.injEq] at heq
          rw [findMatching, hm, heq.1]
        | cons b pre' =>
          simp only [List.cons_append, List.cons.injEq] at heq
          obtain ⟨cb, hcb, hcb3⟩ := hpre b (by simp)
          rw [← heq.1] at hcb
          rw [hc] at hcb
          simp only [Except.ok.injEq] at hcb
          omega
    · have hm : isMatchE p a = .ok false := by
        rw [isMatchE_of_count hc, decide_eq_false h3]
      rw [findMatching, hm, ih hrest]
      constructor
      · rintro ⟨pre, post, heq, hs, hpre⟩
        exact ⟨a :: pre, post, by simp [heq], hs, by
          intro x hx
          rcases List.mem_cons.mp hx with hx | hx
          · subst hx; exact ⟨c, hc, by omega⟩
          · exact hpre x hx⟩
      · rintro ⟨pre, post, heq, ⟨cs, hcs, hcs3⟩, hpre⟩
        cases pre with
        | nil =>
          simp only [List.nil_append, List.cons.injEq] at heq
          rw [heq.1] at hc
          rw [hcs] at hc
          simp only [Except.ok.injEq] at hc
          omega
        | cons b pre' =>
          simp only [List.cons_append, List.cons.injEq] at heq
          exact ⟨pre', post, heq.2, ⟨cs, hcs, hcs3⟩,
            fun x hx => hpre x (by simp [hx])⟩

theorem findMatching_none (p : Payload) (subs : List Submission)
    (h : ∀ x ∈ subs, ∃ c, matchCountE p x = .ok c ∧ c ≤ 2) :
    findMatching p subs = .ok none := by
  induction subs with
  | nil => rfl
  | cons a rest ih =>
    obtain ⟨c, hc, hc2⟩ := h a (by simp)
    have hm : isMatchE p a = .ok false := by
      rw [isMatchE_of_count hc, decide_eq_false (by omega)]
    rw [findMatching, hm]
    exact ih fun x hx => h x (by simp [hx])

/-- C1: for every parsed payload and submission list (whose entries all
carry a name, as the stored-data invariant requires), the matcher selects
`s` iff `s` is the first submission in list order whose five equality
checks (name case-insensitive/trimmed, dob with absent-equivalence,
aadhaar, mobile, username) score at least 3; and when every submission
scores at most 2, the scan returns the "no matching submission" verdict
with no submission selected. -/
theorem c1_threshold_selection (now : Int) (p : Payload)
    (subs : List Submission) (s : Submission)
    (h : ∀ x ∈ subs, x.name.isSome) :
    (findMatching p subs = .ok (some s) ↔ selectedFirst p subs s) ∧
    ((∀ x ∈ subs, ∃ c, matchCountE p x = .ok c ∧ c ≤ 2) →
      validateQRData now p subs = noMatchResult p ∧
      (validateQRData now p subs).submission = none) := by
  refine ⟨findMatching_iff p subs s h, fun hlow => ?_⟩
  have hn := findMatching_none p subs hlow
  constructor
  · unfold validateQRData validateQRDataE
    rw [hn]
  · unfold validateQRData validateQRDataE
    rw [hn]
    rfl

/-! ### Branch equations for `validateQRData` -/

theorem validate_eq_error {now : Int} {p : Payload} {subs : List Submission}
    {e : String} (hf : findMatching p subs = .error e) :
    validateQRData now p subs = errorResult e := by
  unfold validateQRData validateQRDataE
  rw [hf]

theorem validate_eq_noMatch {now : Int} {p : Payload} {subs : List Submission}
    (hf : findMatching p subs = .ok none) :
    validateQRData now p subs = noMatchResult p := by
  unfold validateQRData validateQRDataE
  rw [hf]

theorem validate_eq_expired {now : Int} {p : Payload} {subs : List Submission}
    {m : Submission} (hf : findMatching p subs = .ok (some m))
    (hexp : isExpired now p = true) :
    validateQRData now p subs = expiredResult p m := by
  unfold validateQRData validateQRDataE
  rw [hf, hexp]
  rfl

theorem validate_eq_checksError {now : Int} {p : Payload} {subs : List Submission}
    {m : Submission} {e : String} (hf : findMatching p subs = .ok (some m))
    (hexp : isExpired now p = false) (hcs : dataChecks p m = .error e) :
    validateQRData now p subs = errorResult e := by
  simp only [validateQRData, validateQRDataE, hf, hexp, hcs, Bool.false_eq_true,
    if_false]

theorem validate_eq_matched {now : Int} {p : Payload} {subs : List Submission}
    {m : Submission} {cs : FieldChecks} (hf : findMatching p subs = .ok (some m))
    (hexp : isExpired now p = false) (hcs : dataChecks p m = .ok cs) :
    validateQRData now p subs = matchedResult p m cs := by
  simp only [validateQRData, validateQRDataE, hf, hexp, hcs, Bool.false_eq_true,
    if_false]

theorem attrVerification_inv {now : Int} {p : Payload} {subs : List Submission}
    {av : List (String × AttrCheck)}
    (hav : (validateQRData now p subs).attributeVerification = some av) :
    ∃ m cs, findMatching p subs = .ok (some m) ∧ isExpired now p = false ∧
      dataChecks p m = .ok cs ∧ validateQRData now p subs = matchedResult p m cs := by
  cases hf : findMatching p subs with
  | error e => rw [validate_eq_error hf] at hav; simp [errorResult] at hav
  | ok o =>
    cases o with
    | none => rw [validate_eq_noMatch hf] at hav; simp [noMatchResult] at hav
    | some m =>
      cases hexp : isExpired now p with
      | true => rw [validate_eq_expired hf hexp] at hav; simp [expiredResult] at hav
      | false =>
        cases hcs : dataChecks p m with
        | error e =>
          rw [validate_eq_checksError hf hexp hcs] at hav
          simp [errorResult] at hav
        | ok cs =>
          exact ⟨m, cs, rfl, rfl, hcs, validate_eq_matched hf hexp hcs⟩

/-! ### Test fixtures shared by the concrete witnesses -/

/-- A stored submission in the shape produced by the upload flow. -/
def subJane : Submission :=
  ⟨7, some "Jane Doe", some "N/A", some "123", some "555", some "jane", none⟩

/-- A payload agreeing with `subJane` on exactly name, aadhaar and mobile
(3 of 5): dob and username differ. -/
def payThree : Payload :=
  ⟨some "Jane Doe", some "1990-01-01", some "123", some "555", some "janed",
    none, some 0, none⟩

/-- A payload agreeing with `subJane` on all five matched fields. -/
def payFull : Payload :=
  ⟨some "Jane Doe", some "N/A", some "123", some "555", some "jane",
    none, some 0, none⟩

/-- `payFull` with only the `age` attribute requested for verification. -/
def payAgeOnly : Payload :=
  ⟨some "Jane Doe", some "N/A", some "123", some "555", some "jane",
    none, some 0, some ⟨false, true, false, false, false⟩⟩

/-- `payFull` with `verifiedAt` absent (or unparseable): the model of a
payload whose timestamp does not produce a finite epoch value. -/
def payNoTs : Payload :=
  ⟨some "Jane Doe", some "N/A", some "123", some "555", some "jane",
    none, none, none⟩

/-- A submission sharing no field with `payFull` (match count 0). -/
def subOther : Submission :=
  ⟨2, some "Someone Else", some "1970-05-05", some "999", some "111",
    some "other", none⟩

/-- A stored submission with no `name` field: the match predicate throws
on it. -/
def subNoName : Submission :=
  ⟨3, none, some "N/A", some "123", some "555", some "jane", none⟩

/-- C1 witness. -/
theorem c1_threshold_selection_witness :
    (findMatching payThree [subJane] = .ok (some subJane) ↔
      selectedFirst payThree [subJane] subJane) ∧
    ((∀ x ∈ [subJane], ∃ c, matchCountE payThree x = .ok c ∧ c ≤ 2) →
      validateQRData 0 payThree [subJane] = noMatchResult payThree ∧
      (validateQRData 0 payThree [subJane]).submission = none) :=
  c1_threshold_selection 0 payThree [subJane] subJane (by decide)

/-- C2 counterexample: a matched, unexpired payload requesting only `age`
still receives an `attributeVerification` object with entries for all five
attributes (in particular a `name` entry with `requested = false`), not an
object with exactly one entry. -/
theorem c2_counterexample :
    payAgeOnly.verificationRequested = some ⟨false, true, false, false, false⟩ ∧
    ((validateQRData 0 payAgeOnly [subJane]).attributeVerification.getD
        []).map Prod.fst = ["name", "age", "mobile", "aadhaar", "address"] ∧
    ((validateQRData 0 payAgeOnly [subJane]).attributeVerification.getD
        []).length ≠ 1 := by
  refine ⟨rfl, rfl, by decide⟩

/-- C2 (amended): whenever `validateQRData` returns an attribute verdict,
that verdict lists all five attributes (each tagged with its `requested`
flag); the displayed verdict — the entries whose `requested` flag is true,
exactly as the dashboard filters them — contains an entry if and only if
the attribute was requested; and with `verificationRequested = {age: true}`
only, the displayed verdict has exactly one entry, `age`, whose check is
the dob-equality check against the matched submission. -/
theorem c2_requested_filtering (now : Int) (p : Payload)
    (subs : List Submission) (av : List (String × AttrCheck))
    (hav : (validateQRData now p subs).attributeVerification = some av) :
    (av.map Prod.fst = ["name", "age", "mobile", "aadhaar", "address"]) ∧
    (∀ e ∈ av, (e ∈ displayedAttrs av ↔ e.2.requested = true)) ∧
    (p.verificationRequested = some ⟨false, true, false, false, false⟩ →
      ∃ m cs, (validateQRData now p subs).submission = some m ∧
        dataChecks p m = .ok cs ∧
        displayedAttrs av = [("age", ⟨cs.dobValid, p.dob, m.dob, true⟩)]) := by
  obtain ⟨m, cs, hm, hexp, hcs, hres⟩ := attrVerification_inv hav
  rw [hres] at hav
  have hav' : av = attrList p m cs := by
    simpa [matchedResult] using hav.symm
  subst hav'
  refine ⟨by simp [attrList], ?_, ?_⟩
  · intro e he
    simp [displayedAttrs, List.mem_filter, he]
  · intro hvr
    refine ⟨m, cs, by rw [hres]; rfl, hcs, ?_⟩
    simp [displayedAttrs, attrList, reqOf, hvr]

/-- C2 witness. -/
theorem c2_requested_filtering_witness :
    (((validateQRData 0 payAgeOnly [subJane]).attributeVerification.getD
        []).map Prod.fst = ["name", "age", "mobile", "aadhaar", "address"]) ∧
    (∀ e ∈ (validateQRData 0 payAgeOnly [subJane]).attributeVerification.getD [],
      (e ∈ displayedAttrs
        ((validateQRData 0 payAgeOnly [subJane]).attributeVerification.getD []) ↔
        e.2.requested = true)) ∧
    (payAgeOnly.verificationRequested = some ⟨false, true, false, false, false⟩ →
      ∃ m cs, (validateQRData 0 payAgeOnly [subJane]).submission = some m ∧
        dataChecks payAgeOnly m = .ok cs ∧
        displayedAttrs
          ((validateQRData 0 payAgeOnly [subJane]).attributeVerification.getD [])
          = [("age", ⟨cs.dobValid, payAgeOnly.dob, m.dob, true⟩)]) := by
  have h := c2_requested_filtering 0 payAgeOnly [subJane]
    ((validateQRData 0 payAgeOnly [subJane]).attributeVerification.getD [])
    (by rfl)
  simpa using h

/-- C3: for every payload that matches some submission and whose
`verifiedAt` timestamp is more than 24 hours before the current time, the
scan produces the expired verdict (which still carries the matched
submission but is not valid) and triggers no status update — regardless of
how the five fields compare. -/
theorem c3_expired_no_update (now : Int) (p : Payload) (subs : List Submission)
    (m : Submission) (t : Int)
    (hm : findMatching p subs = .ok (some m))
    (ht : p.verifiedAt = some t)
    (hold : 24 * 3600 * 1000 < now - t) :
    validateQRData now p subs = expiredResult p m ∧
    (validateQRData now p subs).isValid = false ∧
    (validateQRData now p subs).message = expiredMsg ∧
    scanStatusUpdate (validateQRData now p subs) = none := by
  have hexp : isExpired now p = true := by
    simp only [isExpired, ht]
    simp only [decide_eq_true_eq]
    omega
  have hres := validate_eq_expired hm hexp
  exact ⟨hres, by rw [hres]; rfl, by rw [hres]; rfl, by rw [hres]; rfl⟩

/-- C3 witness: `verifiedAt` 25 hours in the past, all five fields equal. -/
theorem c3_expired_no_update_witness :
    validateQRData 90000000 payFull [subJane] = expiredResult payFull subJane ∧
    (validateQRData 90000000 payFull [subJane]).isValid = false ∧
    (validateQRData 90000000 payFull [subJane]).message = expiredMsg ∧
    scanStatusUpdate (validateQRData 90000000 payFull [subJane]) = none :=
  c3_expired_no_update 90000000 payFull [subJane] subJane 0 rfl rfl (by decide)

/-- C4: `updateSubmissionStatus(id, 'verified')` fires exactly when the
verdict is "verified" (match found, not expired, all five validation
checks pass); the discrepancy outcome returns the attribute breakdown and
no status change; the no-match and expired outcomes cause no status
change either. -/
theorem c4_update_iff_verified (now : Int) (p : Payload)
    (subs : List Submission) :
    (∀ i, scanStatusUpdate (validateQRData now p subs) = some i ↔
      ∃ m cs, findMatching p subs = .ok (some m) ∧ isExpired now p = false ∧
        dataChecks p m = .ok cs ∧ allValid cs = true ∧ i = m.id ∧
        (validateQRData now p subs).message = verifiedMsg) ∧
    (∀ m cs, findMatching p subs = .ok (some m) → isExpired now p = false →
      dataChecks p m = .ok cs → allValid cs = false →
      validateQRData now p subs = matchedResult p m cs ∧
      (validateQRData now p subs).message = discrepancyMsg ∧
      (validateQRData now p subs).attributeVerification = some (attrList p m cs) ∧
      scanStatusUpdate (validateQRData now p subs) = none) ∧
    (findMatching p subs = .ok none →
      scanStatusUpdate (validateQRData now p subs) = none) ∧
    (∀ m, findMatching p subs = .ok (some m) → isExpired now p = true →
      scanStatusUpdate (validateQRData now p subs) = none) := by
  refine ⟨?_, ?_, ?_, ?_⟩
  · intro i
    constructor
    · intro hupd
      cases hf : findMatching p subs with
      | error e =>
        rw [validate_eq_error hf] at hupd
        simp [scanStatusUpdate, errorResult] at hupd
      | ok o =>
        cases o with
        | none =>
          rw [validate_eq_noMatch hf] at hupd
          simp [scanStatusUpdate, noMatchResult] at hupd
        | some m =>
          cases hexp : isExpired now p with
          | true =>
            rw [validate_eq_expired hf hexp] at hupd
            simp [scanStatusUpdate, expiredResult] at hupd
          | false =>
            cases hcs : dataChecks p m with
            | error e =>
              rw [validate_eq_checksError hf hexp hcs] at hupd
              simp [scanStatusUpdate, errorResult] at hupd
            | ok cs =>
              have hres := validate_eq_matched hf hexp hcs
              rw [hres] at hupd
              cases hall : allValid cs with
              | false =>
                simp [scanStatusUpdate, matchedResult, hall] at hupd
              | true =>
                refine ⟨m, cs, rfl, rfl, hcs, hall, ?_, ?_⟩
                · have hmi : m.id = i := by
                    simpa [scanStatusUpdate, matchedResult, hall] using hupd
                  exact hmi.symm
                · rw [hres]
                  simp [matchedResult, hall]
    · rintro ⟨m, cs, hf, hexp, hcs, hall, hi, -⟩
      have hres := validate_eq_matched hf hexp hcs
      rw [hres]
      simp [scanStatusUpdate, matchedResult, hall, hi]
  · intro m cs hf hexp hcs hall
    have hres := validate_eq_matched hf hexp hcs
    refine ⟨hres, ?_, ?_, ?_⟩
    · rw [hres]; simp [matchedResult, hall]
    · rw [hres]; rfl
    · rw [hres]; simp [scanStatusUpdate, matchedResult, hall]
  · intro hf
    rw [validate_eq_noMatch hf]
    rfl
  · intro m hf hexp
    rw [validate_eq_expired hf hexp]
    rfl

/-- C4 witness: a payload matching 3 of 5 fields but failing exact
validation produces the discrepancy outcome with no status change. -/
theorem c4_update_iff_verified_witness :
    validateQRData 0 payThree [subJane] =
      matchedResult payThree subJane ⟨true, false, true, true, false⟩ ∧
    (validateQRData 0 payThree [subJane]).message = discrepancyMsg ∧
    (validateQRData 0 payThree [subJane]).attributeVerification =
      some (attrList payThree subJane ⟨true, false, true, true, false⟩) ∧
    scanStatusUpdate (validateQRData 0 payThree [subJane]) = none :=
  (c4_update_iff_verified 0 payThree [subJane]).2.1 subJane
    ⟨true, false, true, true, false⟩ rfl rfl rfl rfl

/-- C9: evaluation at the failing input.  A matched payload whose
`verifiedAt` is absent (or unparseable — `new Date(...)` gives `NaN`) is
silently treated as not expired for every current time — `NaN > 24` is
`false` — and flows through the ordinary validation path, here even
auto-verifying the submission arbitrarily far in the future.  There is no
defined edge case for the missing timestamp. -/
theorem c9_missing_verifiedAt_not_special_cased :
    payNoTs.verifiedAt = none ∧
    (∀ now : Int, isExpired now payNoTs = false) ∧
    (validateQRData 999999999999 payNoTs [subJane]).isValid = true ∧
    scanStatusUpdate (validateQRData 999999999999 payNoTs [subJane]) = some 7 :=
  ⟨rfl, fun _ => rfl, rfl, rfl⟩

theorem findMatching_error_of (p : Payload) (bad : Submission)
    (post : List Submission) (hbad : bad.name = none) :
    ∀ pre : List Submission,
      (∀ x ∈ pre, ∃ c, matchCountE p x = .ok c ∧ c < 3) →
      findMatching p (pre ++ bad :: post) = .error tlcError := by
  intro pre
  induction pre with
  | nil =>
    intro _
    have hb : isMatchE p bad = .error tlcError := by
      unfold isMatchE matchCountE matchChecks
      rw [hbad]
      rfl
    simp only [List.nil_append, findMatching]
    rw [hb]
  | cons a r ih =>
    intro hpre
    obtain ⟨c, hc, h3⟩ := hpre a (by simp)
    have hm : isMatchE p a = .ok false := by
      rw [isMatchE_of_count hc, decide_eq_false (by omega)]
    simp only [List.cons_append, findMatching]
    rw [hm]
    exact ih fun x hx => hpre x (by simp [hx])

/-- C10: if, before the first submission that could reach the 3-of-5
threshold, the list contains a submission without a (string) name, the
match predicate throws, the exception is caught at the `validateQRData`
boundary, and the whole scan returns the generic "Invalid QR code format"
failure with no submission selected and no status change — regardless of
any later fully-matching submission. -/
theorem c10_throwing_submission (now : Int) (p : Payload)
    (pre : List Submission) (bad : Submission) (post : List Submission)
    (hbad : bad.name = none)
    (hpre : ∀ x ∈ pre, ∃ c, matchCountE p x = .ok c ∧ c < 3) :
    validateQRData now p (pre ++ bad :: post) = errorResult tlcError ∧
    (validateQRData now p (pre ++ bad :: post)).submission = none ∧
    (validateQRData now p (pre ++ bad :: post)).scannedData = none ∧
    (validateQRData now p (pre ++ bad :: post)).message =
      "Invalid QR code format. Parse error: " ++ tlcError ∧
    scanStatusUpdate (validateQRData now p (pre ++ bad :: post)) = none := by
  have herr : validateQRData now p (pre ++ bad :: post) = errorResult tlcError :=
    validate_eq_error (findMatching_error_of p bad post hbad pre hpre)
  exact ⟨herr, by rw [herr]; rfl, by rw [herr]; rfl, by rw [herr]; rfl,
    by rw [herr]; rfl⟩

/-- C10 witness: a low-scoring submission, then a nameless one, then a
fully-agreeing one — the scan still fails with the generic error. -/
theorem c10_throwing_submission_witness :
    validateQRData 0 payFull ([subOther] ++ subNoName :: [subJane]) =
      errorResult tlcError ∧
    (validateQRData 0 payFull ([subOther] ++ subNoName :: [subJane])).submission
      = none ∧
    (validateQRData 0 payFull ([subOther] ++ subNoName :: [subJane])).scannedData
      = none ∧
    (validateQRData 0 payFull ([subOther] ++ subNoName :: [subJane])).message =
      "Invalid QR code format. Parse error: " ++ tlcError ∧
    scanStatusUpdate (validateQRData 0 payFull ([subOther] ++ subNoName :: [subJane]))
      = none :=
  c10_throwing_submission 0 payFull [subOther] subNoName [subJane] rfl
    (by
      intro x hx
      simp only [List.mem_singleton] at hx
      subst hx
      exact ⟨0, rfl, by omega⟩)

/-! ### JSON values

The codec (`submissionStore.js`) and the QR decoder (`qrParser.js`) both
bottom out in `JSON.stringify` / `JSON.parse`.  These platform primitives
are modelled over the inductive below; numbers are restricted to integers
(every value this application serialises is built from strings, booleans
and maps).  Object fields are kept in insertion order, as JavaScript
does. -/

inductive Json where
  | null : Json
  | bool (b : Bool) : Json
  | num (n : Int) : Json
  | str (s : String) : Json
  | arr (l : List Json) : Json
  | obj (l : List (String × Json)) : Json

mutual

def jsonBeq : Json → Json → Bool
  | .null, .null => true
  | .bool a, .bool b => a == b
  | .num a, .num b => a == b
  | .str a, .str b => a == b
  | .arr a, .arr b => jsonBeqList a b
  | .obj a, .obj b => jsonBeqFields a b
  | _, _ => false

def jsonBeqList : List Json → List Json → Bool
  | a :: moreA, b :: moreB => jsonBeq a b && jsonBeqList moreA moreB
  | [], [] => true
  | _, _ => false

def jsonBeqFields : List (String × Json) → List (String × Json) → Bool
  | (ka, va) :: moreA, (kb, vb) :: moreB =>
    ka == kb && jsonBeq va vb && jsonBeqFields moreA moreB
  | [], [] => true
  | _, _ => false

end

mutual

theorem jsonBeq_iff : ∀ a b : Json, jsonBeq a b = true ↔ a = b
  | .null, .null => by simp [jsonBeq]
  | .bool _, .bool _ => by simp [jsonBeq]
  | .num _, .num _ => by simp [jsonBeq]
  | .str _, .str _ => by simp [jsonBeq]
  | .arr x, .arr y => by simp [jsonBeq, jsonBeqList_iff x y]
  | .obj x, .obj y => by simp [jsonBeq, jsonBeqFields_iff x y]
  | .null, .bool _ | .null, .num _ | .null, .str _ | .null, .arr _ | .null, .obj _
  | .bool _, .null | .bool _, .num _ | .bool _, .str _ | .bool _, .arr _ | .bool _, .obj _
  | .num _, .null | .num _, .bool _ | .num _, .str _ | .num _, .arr _ | .num _, .obj _
  | .str _, .null | .str _, .bool _ | .str _, .num _ | .str _, .arr _ | .str _, .obj _
  | .arr _, .null | .arr _, .bool _ | .arr _, .num _ | .arr _, .str _ | .arr _, .obj _
  | .obj _, .null | .obj _, .bool _ | .obj _, .num _ | .obj _, .str _ | .obj _, .arr _ =>
    by simp [jsonBeq]

theorem jsonBeqList_iff : ∀ x y : List Json, jsonBeqList x y = true ↔ x = y
  | [], [] => by simp [jsonBeqList]
  | a :: x, b :: y => by
    simp [jsonBeqList, jsonBeq_iff a b, jsonBeqList_iff x y]
  | [], _ :: _ => by simp [jsonBeqList]
  | _ :: _, [] => by simp [jsonBeqList]

theorem jsonBeqFields_iff : ∀ x y : List (String × Json), jsonBeqFields x y = true ↔ x = y
  | [], [] => by simp [jsonBeqFields]
  | (k₁, v₁) :: x, (k₂, v₂) :: y => by
    simp [jsonBeqFields, jsonBeq_iff v₁ v₂, jsonBeqFields_iff x y]
  | [], _ :: _ => by simp [jsonBeqFields]
  | _ :: _, [] => by simp [jsonBeqFields]

end

instance : DecidableEq Json := fun a b =>
  decidable_of_iff (jsonBeq a b = true) (jsonBeq_iff a b)

/-! ### Printing (model of `JSON.stringify`) -/

/-- Lowercase hexadecimal digit. -/
def hexLower (n : Nat) : Char :=
  if n < 10 then Char.ofNat (48 + n) else Char.ofNat (87 + n)

/-- Uppercase hexadecimal digit (used by `encodeURIComponent`). -/
def hexUpper (n : Nat) : Char :=
  if n < 10 then Char.ofNat (48 + n) else Char.ofNat (55 + n)

/-- Escaping of one character inside a JSON string literal.  The quote and
the backslash are escaped, control characters take the `\u00XX` form (the
real `JSON.stringify` shortens five of them to `\b` etc.; the two spellings
parse identically). -/
def escChar (c : Char) : List Char :=
  if c = '"' then ['\\', '"']
  else if c = '\\' then ['\\', '\\']
  else if c.toNat < 32 then
    ['\\', 'u', '0', '0', hexLower (c.toNat / 16), hexLower (c.toNat % 16)]
  else [c]

/-- Escape a whole character list. -/
def escapeChars (l : List Char) : List Char :=
  l.foldr (fun c acc => escChar c ++ acc) []

/-- A JSON string literal with its quotes. -/
def printStrLit (s : String) : List Char :=
  '"' :: (escapeChars s.data ++ ['"'])

/-- Decimal digit character. -/
def digitChar (d : Nat) : Char := Char.ofNat (48 + d)

/-- Decimal digits of a natural number, most significant first; the first
argument is fuel (`n` itself is always enough). -/
def natTextGo : Nat → Nat → List Char
  | 0, n => [digitChar (n % 10)]
  | fuel + 1, n =>
    if n < 10 then [digitChar n]
    else natTextGo fuel (n / 10) ++ [digitChar (n % 10)]

/-- Decimal text of a natural number. -/
def natText (n : Nat) : List Char := natTextGo n n

/-- Decimal text of an integer. -/
def intText (i : Int) : List Char :=
  if i < 0 then '-' :: natText i.natAbs else natText i.toNat

mutual

/-- Model of `JSON.stringify` (compact form, no whitespace). -/
def printJson : Json → List Char
  | .num n => intText n
  | .str s => printStrLit s
  | .null => ("null").data
  | .bool true => ("true").data
  | .bool false => ("false").data
  | .arr (x :: xs) => '[' :: ((printJson x ++ printElemsRest xs) ++ [']'])
  | .arr [] => ("[]").data
  | .obj (kv :: kvs) => '{' :: ((printMember kv ++ printMembersRest kvs) ++ ['}'])
  | .obj [] => "\x7b\x7d".data

def printMember : String × Json → List Char
  | (k, v) => printStrLit k ++ (':' :: printJson v)

def printElemsRest : List Json → List Char
  | e :: more => ',' :: (printJson e ++ printElemsRest more)
  | [] => []

def printMembersRest : List (String × Json) → List Char
  | kv :: more => ',' :: (printMember kv ++ printMembersRest more)
  | [] => []

end

/-! ### Parsing (model of `JSON.parse`)

The parser is recursive descent over a character list, with an explicit
fuel parameter (any fuel at least the structural size of the encoded value
suffices; the top-level entry point passes the input length).  Numbers are
integer-only and the parser is slightly more liberal than `JSON.parse`
about leading zeros; the printer never produces either divergence. -/

/-- JSON whitespace. -/
def isJsonWs (c : Char) : Bool :=
  c = ' ' || c = '\t' || c = '\n' || c = '\r'

/-- Skip leading JSON whitespace. -/
def skipWs : List Char → List Char
  | [] => []
  | c :: r => if isJsonWs c then skipWs r else c :: r

/-- Value of a hexadecimal digit character, either case. -/
def hexVal (c : Char) : Option Nat :=
  if '0' ≤ c ∧ c ≤ '9' then some (c.toNat - 48)
  else if 'a' ≤ c ∧ c ≤ 'f' then some (c.toNat - 87)
  else if 'A' ≤ c ∧ c ≤ 'F' then some (c.toNat - 55)
  else none

/-- Single-character JSON escapes. -/
def escDecode (c : Char) : Option Char :=
  if c = '"' then some '"'
  else if c = '\\' then some '\\'
  else if c = '/' then some '/'
  else if c = 'b' then some (Char.ofNat 8)
  else if c = 'f' then some (Char.ofNat 12)
  else if c = 'n' then some (Char.ofNat 10)
  else if c = 'r' then some (Char.ofNat 13)
  else if c = 't' then some (Char.ofNat 9)
  else none

/-- Parse the remainder of a JSON string literal (after the opening
quote): returns the decoded content and the text after the closing
quote.  Unescaped control characters are rejected, as `JSON.parse`
does. -/
def parseStringBody : List Char → Option (List Char × List Char)
  | [] => none
  | c :: r =>
    if c = '"' then some ([], r)
    else if c = '\\' then
      match r with
      | [] => none
      | e :: r2 =>
        if e = 'u' then
          match r2 with
          | h1 :: h2 :: h3 :: h4 :: r3 =>
            match hexVal h1, hexVal h2, hexVal h3, hexVal h4 with
            | some a, some b, some c4, some d =>
              match parseStringBody r3 with
              | some (cs, rest) =>
                some (Char.ofNat (((a * 16 + b) * 16 + c4) * 16 + d) :: cs, rest)
              | none => none
            | _, _, _, _ => none
          | _ => none
        else
          match escDecode e with
          | some ec =>
            match parseStringBody r2 with
            | some (cs, rest) => some (ec :: cs, rest)
            | none => none
          | none => none
    else if c.toNat < 32 then none
    else
      match parseStringBody r with
      | some (cs, rest) => some (c :: cs, rest)
      | none => none

/-- Longest digit prefix and the remainder. -/
def spanDigits : List Char → (List Char × List Char)
  | [] => ([], [])
  | c :: r =>
    if c.isDigit then
      match spanDigits r with
      | (ds, rest) => (c :: ds, rest)
    else ([], c :: r)

/-- Value of a digit list, most significant first. -/
def digitsVal (ds : List Char) : Nat :=
  ds.foldl (fun acc c => 10 * acc + (c.toNat - 48)) 0

mutual

/-- Parse one JSON value (after optional whitespace); returns the value
and the unconsumed remainder. -/
def parseValue : Nat → List Char → Option (Json × List Char)
  | 0, _ => none
  | fuel + 1, s =>
    match skipWs s with
    | [] => none
    | c :: r =>
      if c = '{' then
        match skipWs r with
        | [] => none
        | c2 :: r2 =>
          if c2 = '}' then some (.obj [], r2)
          else
            match parseMembers fuel (c2 :: r2) with
            | some (l, rest) => some (.obj l, rest)
            | none => none
      else if c = '[' then
        match skipWs r with
        | [] => none
        | c2 :: r2 =>
          if c2 = ']' then some (.arr [], r2)
          else
            match parseElems fuel (c2 :: r2) with
            | some (l, rest) => some (.arr l, rest)
            | none => none
      else if c = '"' then
        match parseStringBody r with
        | some (cs, rest) => some (.str (String.mk cs), rest)
        | none => none
      else if c = 't' then
        match r with
        | 'r' :: 'u' :: 'e' :: r2 => some (.bool true, r2)
        | _ => none
      else if c = 'f' then
        match r with
        | 'a' :: 'l' :: 's' :: 'e' :: r2 => some (.bool false, r2)
        | _ => none
      else if c = 'n' then
        match r with
        | 'u' :: 'l' :: 'l' :: r2 => some (.null, r2)
        | _ => none
      else if c = '-' then
        match spanDigits r with
        | (ds, rest) => if ds = [] then none else some (.num (-(digitsVal ds : Int)), rest)
      else if c.isDigit then
        match spanDigits (c :: r) with
        | (ds, rest) => some (.num (digitsVal ds), rest)
      else none

/-- Parse the (non-empty) member list of an object, consuming the closing
brace. -/
def parseMembers : Nat → List Char → Option (List (String × Json) × List Char)
  | 0, _ => none
  | fuel + 1, s =>
    match s with
    | [] => none
    | c :: r =>
      if c = '"' then
        match parseStringBody r with
        | some (k, r2) =>
          match skipWs r2 with
          | [] => none
          | c3 :: r3 =>
            if c3 = ':' then
              match parseValue fuel r3 with
              | some (v, r4) =>
                match skipWs r4 with
                | [] => none
                | c4 :: r5 =>
                  if c4 = ',' then
                    match parseMembers fuel (skipWs r5) with
                    | some (l, rest) => some ((String.mk k, v) :: l, rest)
                    | none => none
                  else if c4 = '}' then some ([(String.mk k, v)], r5)
                  else none
              | none => none
            else none
        | none => none
      else none

/-- Parse the (non-empty) element list of an array, consuming the closing
bracket. -/
def parseElems : Nat → List Char → Option (List Json × List Char)
  | 0, _ => none
  | fuel + 1, s =>
    match parseValue fuel s with
    | some (v, r) =>
      match skipWs r with
      | [] => none
      | c2 :: r2 =>
        if c2 = ',' then
          match parseElems fuel (skipWs r2) with
          | some (l, rest) => some (v :: l, rest)
          | none => none
        else if c2 = ']' then some ([v], r2)
        else none
    | none => none

end

/-- Model of `JSON.parse`: one value, with only whitespace allowed after
it; `none` models the thrown `SyntaxError`. -/
def parseJson (s : List Char) : Option Json :=
  match parseValue (s.length + 1) s with
  | some (j, rest) => if skipWs rest = [] then some j else none
  | none => none

/-! ### Round-trip: helper lemmas -/

theorem skipWs_not {c : Char} {r : List Char} (h : isJsonWs c = false) :
    skipWs (c :: r) = c :: r := by
  simp [skipWs, h]

theorem not_ws_of_digit {c : Char} (h : c.isDigit = true) : isJsonWs c = false := by
  simp only [isJsonWs]
  rw [decide_eq_false (fun he => by subst he; exact absurd h (by decide) : ¬ c = ' '),
    decide_eq_false (fun he => by subst he; exact absurd h (by decide) : ¬ c = '\t'),
    decide_eq_false (fun he => by subst he; exact absurd h (by decide) : ¬ c = '\n'),
    decide_eq_false (fun he => by subst he; exact absurd h (by decide) : ¬ c = '\r')]
  rfl

theorem digit_ne {c : Char} (h : c.isDigit = true) {d : Char}
    (hd : d.isDigit = false) : ¬ c = d := by
  intro he
  subst he
  rw [h] at hd
  cases hd

theorem parseStringBody_esc2 (e ec : Char) (he : ¬ e = 'u')
    (hd : escDecode e = some ec) (Z : List Char) :
    parseStringBody ('\\' :: e :: Z) =
      match parseStringBody Z with
      | some (cs, rest) => some (ec :: cs, rest)
      | none => none := by
  rw [parseStringBody.eq_def]
  dsimp only
  rw [if_neg (by decide), if_pos rfl, if_neg he, hd]

theorem parseStringBody_u {c : Char} (h3 : c.toNat < 32) (Z : List Char) :
    parseStringBody ('\\' :: 'u' :: '0' :: '0' ::
        hexLower (c.toNat / 16) :: hexLower (c.toNat % 16) :: Z) =
      match parseStringBody Z with
      | some (cs, rest) => some (c :: cs, rest)
      | none => none := by
  have h16 : ∀ d, d < 16 → hexVal (hexLower d) = some d := by decide
  rw [parseStringBody.eq_def]
  dsimp only
  rw [if_neg (by decide), if_pos rfl, if_pos rfl]
  rw [show hexVal '0' = some 0 from by decide, h16 _ (by omega), h16 _ (by omega)]
  dsimp only
  have he : ((0 * 16 + 0) * 16 + c.toNat / 16) * 16 + c.toNat % 16 = c.toNat := by
    omega
  rw [he, Char.ofNat_toNat]

theorem parseStringBody_plain {c : Char} (h1 : ¬ c = '"') (h2 : ¬ c = '\\')
    (h3 : ¬ c.toNat < 32) (Z : List Char) :
    parseStringBody (c :: Z) =
      match parseStringBody Z with
      | some (cs, rest) => some (c :: cs, rest)
      | none => none := by
  rw [parseStringBody.eq_def]
  dsimp only
  rw [if_neg h1, if_neg h2, if_neg h3]

theorem parseStringBody_escape : ∀ l Z,
    parseStringBody (escapeChars l ++ ('"' :: Z)) = some (l, Z) := by
  intro l
  induction l with
  | nil =>
    intro Z
    rw [show escapeChars [] = [] from rfl, List.nil_append, parseStringBody.eq_def]
    dsimp only
    rw [if_pos rfl]
  | cons c cs ih =>
    intro Z
    rw [show escapeChars (c :: cs) = escChar c ++ escapeChars cs from rfl,
      List.append_assoc]
    by_cases h1 : c = '"'
    · subst h1
      rw [show escChar '"' = ['\\', '"'] from by decide]
      simp only [List.cons_append, List.nil_append]
      rw [parseStringBody_esc2 '"' '"' (by decide) (by decide), ih Z]
    · by_cases h2 : c = '\\'
      · subst h2
        rw [show escChar '\\' = ['\\', '\\'] from by decide]
        simp only [List.cons_append, List.nil_append]
        rw [parseStringBody_esc2 '\\' '\\' (by decide) (by decide), ih Z]
      · by_cases h3 : c.toNat < 32
        · rw [show escChar c = ['\\', 'u', '0', '0', hexLower (c.toNat / 16),
              hexLower (c.toNat % 16)] from by simp [escChar, h1, h2, h3]]
          simp only [List.cons_append, List.nil_append]
          rw [parseStringBody_u h3, ih Z]
        · rw [show escChar c = [c] from by simp [escChar, h1, h2, h3]]
          simp only [List.cons_append, List.nil_append]
          rw [parseStringBody_plain h1 h2 h3, ih Z]

/-- `noDigitHead r` holds when `r` does not begin with a decimal digit
(number parsing cannot overrun into it). -/
def noDigitHead : List Char → Bool
  | [] => true
  | c :: _ => !c.isDigit

theorem spanDigits_exact : ∀ ds rest, (∀ c ∈ ds, c.isDigit = true) →
    noDigitHead rest = true → spanDigits (ds ++ rest) = (ds, rest) := by
  intro ds
  induction ds with
  | nil =>
    intro rest _ hr
    cases rest with
    | nil => rfl
    | cons c r =>
      simp only [noDigitHead, Bool.not_eq_true'] at hr
      simp [spanDigits, hr]
  | cons c ds ih =>
    intro rest hds hr
    have hc : c.isDigit = true := hds c (by simp)
    rw [List.cons_append, spanDigits.eq_def]
    dsimp only
    rw [if_pos hc, ih rest (fun x hx => hds x (by simp [hx])) hr]

theorem digitsVal_append_digit (a : List Char) (d : Char) :
    digitsVal (a ++ [d]) = 10 * digitsVal a + (d.toNat - 48) := by
  simp [digitsVal, List.foldl_append]

theorem natTextGo_spec : ∀ fuel n, n ≤ fuel →
    natTextGo fuel n ≠ [] ∧ (∀ c ∈ natTextGo fuel n, c.isDigit = true) ∧
      digitsVal (natTextGo fuel n) = n := by
  have hd10 : ∀ d, d < 10 → (digitChar d).isDigit = true := by decide
  have ht10 : ∀ d, d < 10 → (digitChar d).toNat = 48 + d := by decide
  intro fuel
  induction fuel with
  | zero =>
    intro n hn
    have : n = 0 := by omega
    subst this
    refine ⟨by simp [natTextGo], ?_, ?_⟩
    · intro c hc
      simp only [natTextGo, List.mem_singleton] at hc
      subst hc
      exact hd10 _ (by omega)
    · simp [natTextGo, digitsVal]
      rw [ht10 _ (by omega)]
  | succ fuel ih =>
    intro n hn
    by_cases h10 : n < 10
    · rw [show natTextGo (fuel + 1) n = [digitChar n] from by
        simp [natTextGo, h10]]
      refine ⟨by simp, ?_, ?_⟩
      · intro c hc
        simp only [List.mem_singleton] at hc
        subst hc
        exact hd10 _ h10
      · simp [digitsVal]
        rw [ht10 _ h10]
        omega
    · rw [show natTextGo (fuel + 1) n =
          natTextGo fuel (n / 10) ++ [digitChar (n % 10)] from by
        simp [natTextGo, h10]]
      obtain ⟨hne, hdig, hval⟩ := ih (n / 10) (by omega)
      refine ⟨by simp, ?_, ?_⟩
      · intro c hc
        rcases List.mem_append.mp hc with hc | hc
        · exact hdig c hc
        · simp only [List.mem_singleton] at hc
          subst hc
          exact hd10 _ (by omega)
      · rw [digitsVal_append_digit, hval, ht10 _ (by omega)]
        omega

theorem natText_spec (n : Nat) :
    natText n ≠ [] ∧ (∀ c ∈ natText n, c.isDigit = true) ∧
      digitsVal (natText n) = n :=
  natTextGo_spec n n le_rfl

/-! ### Round-trip: sizes and shapes -/

mutual

def sizeJ : Json → Nat
  | .arr l => sizeElems l + 1
  | .obj l => sizeFields l + 1
  | _ => 1

def sizeFields : List (String × Json) → Nat
  | (_, v) :: more => 1 + (sizeJ v + sizeFields more)
  | [] => 0

def sizeElems : List Json → Nat
  | v :: more => 1 + (sizeJ v + sizeElems more)
  | [] => 0

end

theorem sizeJ_pos (j : Json) : 1 ≤ sizeJ j := by
  cases j <;> simp [sizeJ]

theorem sizeFields_pos_cons (kv : String × Json) (r : List (String × Json)) :
    1 ≤ sizeFields (kv :: r) := by
  obtain ⟨k, v⟩ := kv
  simp [sizeFields]

theorem sizeElems_pos_cons (v : Json) (r : List Json) :
    1 ≤ sizeElems (v :: r) := by
  simp [sizeElems]

/-- The members of an object as printed, without the surrounding braces. -/
def membersInner : List (String × Json) → List Char
  | [] => []
  | kv :: kvs => printMember kv ++ printMembersRest kvs

/-- The elements of an array as printed, without the surrounding
brackets. -/
def elemsInner : List Json → List Char
  | [] => []
  | x :: xs => printJson x ++ printElemsRest xs

theorem printJson_head (j : Json) :
    ∃ c cs, printJson j = c :: cs ∧ isJsonWs c = false ∧ ¬ c = '}' ∧ ¬ c = ']' := by
  cases j with
  | num i =>
    by_cases hneg : i < 0
    · exact ⟨'-', natText i.natAbs, by simp [printJson, intText, hneg],
        by decide, by decide, by decide⟩
    · obtain ⟨hne, hdig, -⟩ := natText_spec i.toNat
      cases hnt : natText i.toNat with
      | nil => exact absurd hnt hne
      | cons c cs =>
        have hc : c.isDigit = true := hdig c (by rw [hnt]; simp)
        exact ⟨c, cs, by simp [printJson, intText, hneg, hnt],
          not_ws_of_digit hc, digit_ne hc (by decide), digit_ne hc (by decide)⟩
  | null => refine ⟨'n', _, rfl, ?_, ?_, ?_⟩ <;> decide
  | str s => refine ⟨'"', _, rfl, ?_, ?_, ?_⟩ <;> decide
  | bool b =>
    cases b
    · refine ⟨'f', _, rfl, ?_, ?_, ?_⟩ <;> decide
    · refine ⟨'t', _, rfl, ?_, ?_, ?_⟩ <;> decide
  | arr l =>
    cases l
    · refine ⟨'[', _, rfl, ?_, ?_, ?_⟩ <;> decide
    · refine ⟨'[', _, rfl, ?_, ?_, ?_⟩ <;> decide
  | obj l =>
    cases l
    · refine ⟨'{', _, rfl, ?_, ?_, ?_⟩ <;> decide
    · refine ⟨'{', _, rfl, ?_, ?_, ?_⟩ <;> decide

theorem skipWs_nws (c : Char) {r : List Char} (h : isJsonWs c = false) :
    skipWs (c :: r) = c :: r := skipWs_not h

theorem roundtrip_fuel : ∀ n : Nat,
    (∀ j rest, sizeJ j ≤ n → noDigitHead rest = true →
      parseValue n (printJson j ++ rest) = some (j, rest)) ∧
    (∀ l rest, l ≠ [] → sizeFields l ≤ n →
      parseMembers n (membersInner l ++ ('}' :: rest)) = some (l, rest)) ∧
    (∀ l rest, l ≠ [] → sizeElems l ≤ n →
      parseElems n (elemsInner l ++ (']' :: rest)) = some (l, rest)) := by
  intro n
  induction n with
  | zero =>
    refine ⟨?_, ?_, ?_⟩
    · intro j rest hs _
      exact absurd hs (by have := sizeJ_pos j; omega)
    · intro l rest hl hs
      cases l with
      | nil => exact absurd rfl hl
      | cons kv r => exact absurd hs (by have := sizeFields_pos_cons kv r; omega)
    · intro l rest hl hs
      cases l with
      | nil => exact absurd rfl hl
      | cons v r => exact absurd hs (by have := sizeElems_pos_cons v r; omega)
  | succ n ih =>
    obtain ⟨ihv, ihm, ihe⟩ := ih
    refine ⟨?_, ?_, ?_⟩
    · intro j rest hs hrest
      cases j with
      | null =>
        rw [show printJson .null ++ rest = 'n' :: 'u' :: 'l' :: 'l' :: rest from rfl]
        rw [parseValue.eq_def]
        dsimp only
        rw [skipWs_nws 'n' (by decide)]
        dsimp only
        rw [if_neg (by decide), if_neg (by decide), if_neg (by decide),
          if_neg (by decide), if_neg (by decide), if_pos rfl]
        rfl
      | bool b =>
        cases b with
        | true =>
          rw [show printJson (.bool true) ++ rest = 't' :: 'r' :: 'u' :: 'e' :: rest from rfl]
          rw [parseValue.eq_def]
          dsimp only
          rw [skipWs_nws 't' (by decide)]
          dsimp only
          rw [if_neg (by decide), if_neg (by decide), if_neg (by decide), if_pos rfl]
          rfl
        | false =>
          rw [show printJson (.bool false) ++ rest = 'f' :: 'a' :: 'l' :: 's' :: 'e' :: rest from rfl]
          rw [parseValue.eq_def]
          dsimp only
          rw [skipWs_nws 'f' (by decide)]
          dsimp only
          rw [if_neg (by decide), if_neg (by decide), if_neg (by decide),
            if_neg (by decide), if_pos rfl]
          rfl
      | num i =>
        obtain ⟨hne, hdig, hval⟩ := natText_spec i.natAbs
        by_cases hneg : i < 0
        · rw [show printJson (.num i) = '-' :: natText i.natAbs from by
            simp [printJson, intText, hneg]]
          rw [List.cons_append, parseValue.eq_def]
          dsimp only
          rw [skipWs_nws '-' (by decide)]
          dsimp only
          rw [if_neg (by decide), if_neg (by decide), if_neg (by decide),
            if_neg (by decide), if_neg (by decide), if_neg (by decide), if_pos rfl]
          rw [spanDigits_exact _ rest hdig hrest]
          dsimp only
          rw [if_neg hne, hval]
          have : -(i.natAbs : Int) = i := by omega
          rw [this]
        · obtain ⟨hne', hdig', hval'⟩ := natText_spec i.toNat
          cases hnt : natText i.toNat with
          | nil => exact absurd hnt hne'
          | cons c cs =>
            have hc : c.isDigit = true := hdig' c (by rw [hnt]; simp)
            rw [show printJson (.num i) = natText i.toNat from by
              simp [printJson, intText, hneg]]
            rw [hnt, List.cons_append, parseValue.eq_def]
            dsimp only
            rw [skipWs_nws c (not_ws_of_digit hc)]
            dsimp only
            rw [if_neg (digit_ne hc (by decide)), if_neg (digit_ne hc (by decide)),
              if_neg (digit_ne hc (by decide)), if_neg (digit_ne hc (by decide)),
              if_neg (digit_ne hc (by decide)), if_neg (digit_ne hc (by decide)),
              if_neg (digit_ne hc (by decide)), if_pos hc]
            rw [show c :: (cs ++ rest) = (c :: cs) ++ rest from rfl, ← hnt]
            rw [spanDigits_exact _ rest hdig' hrest]
            dsimp only
            rw [hval']
            have : (i.toNat : Int) = i := by omega
            rw [this]
      | str s =>
        rw [show printJson (.str s) ++ rest =
            '"' :: (escapeChars s.data ++ ('"' :: rest)) from by
          simp [printJson, printStrLit]]
        rw [parseValue.eq_def]
        dsimp only
        rw [skipWs_nws '"' (by decide)]
        dsimp only
        rw [if_neg (by decide), if_neg (by decide), if_pos rfl]
        rw [parseStringBody_escape s.data rest]
      | arr l =>
        cases l with
        | nil =>
          rw [show printJson (.arr []) ++ rest = '[' :: ']' :: rest from rfl]
          rw [parseValue.eq_def]
          dsimp only
          rw [skipWs_nws '[' (by decide)]
          dsimp only
          rw [if_neg (by decide), if_pos rfl]
          rw [skipWs_nws ']' (by decide)]
          dsimp only
          rw [if_pos rfl]
        | cons x xs =>
          obtain ⟨c, cs, hpc, hws, hbr, hbk⟩ := printJson_head x
          have hshape : printJson (.arr (x :: xs)) ++ rest =
              '[' :: (elemsInner (x :: xs) ++ (']' :: rest)) := by
            simp [printJson, elemsInner, List.append_assoc]
          have hinner : elemsInner (x :: xs) ++ (']' :: rest) =
              c :: (cs ++ (printElemsRest xs ++ (']' :: rest))) := by
            simp [elemsInner, hpc, List.append_assoc]
          rw [hshape, parseValue.eq_def]
          dsimp only
          rw [skipWs_nws '[' (by decide)]
          dsimp only
          rw [if_neg (by decide), if_pos rfl]
          rw [hinner, skipWs_nws c hws]
          dsimp only
          rw [if_neg hbk, ← hinner]
          rw [ihe (x :: xs) rest (by simp) (by simp [sizeJ] at hs; omega)]
      | obj l =>
        cases l with
        | nil =>
          rw [show printJson (.obj []) ++ rest = '{' :: '}' :: rest from rfl]
          rw [parseValue.eq_def]
          dsimp only
          rw [skipWs_nws '{' (by decide)]
          dsimp only
          rw [if_pos rfl]
          rw [skipWs_nws '}' (by decide)]
          dsimp only
          rw [if_pos rfl]
        | cons kv kvs =>
          obtain ⟨k, v⟩ := kv
          have hshape : printJson (.obj ((k, v) :: kvs)) ++ rest =
              '{' :: (membersInner ((k, v) :: kvs) ++ ('}' :: rest)) := by
            simp [printJson, membersInner, List.append_assoc]
          have hinner : membersInner ((k, v) :: kvs) ++ ('}' :: rest) =
              '"' :: (escapeChars k.data ++ ('"' :: (':' :: (printJson v ++
                (printMembersRest kvs ++ ('}' :: rest)))))) := by
            simp [membersInner, printMember, printStrLit, List.append_assoc]
          rw [hshape, parseValue.eq_def]
          dsimp only
          rw [skipWs_nws '{' (by decide)]
          dsimp only
          rw [if_pos rfl]
          rw [hinner, skipWs_nws '"' (by decide)]
          dsimp only
          rw [if_neg (by decide), ← hinner]
          rw [ihm ((k, v) :: kvs) rest (by simp) (by simp [sizeJ] at hs; omega)]
    · intro l rest hl hs
      cases l with
      | nil => exact absurd rfl hl
      | cons kv kvs =>
        obtain ⟨k, v⟩ := kv
        have hshape : membersInner ((k, v) :: kvs) ++ ('}' :: rest) =
            '"' :: (escapeChars k.data ++ ('"' :: (':' :: (printJson v ++
              (printMembersRest kvs ++ ('}' :: rest)))))) := by
          simp [membersInner, printMember, printStrLit, List.append_assoc]
        have hW : noDigitHead (printMembersRest kvs ++ ('}' :: rest)) = true := by
          cases kvs with
          | nil => simp [printMembersRest, noDigitHead]
          | cons kv2 kvs2 =>
            simp [printMembersRest, noDigitHead]
        have hsv : sizeJ v ≤ n := by
          simp [sizeFields] at hs
          omega
        rw [hshape, parseMembers.eq_def]
        dsimp only
        rw [if_pos rfl]
        rw [parseStringBody_escape k.data _]
        dsimp only
        rw [skipWs_nws ':' (by decide)]
        dsimp only
        rw [if_pos rfl]
        rw [ihv v (printMembersRest kvs ++ ('}' :: rest)) hsv hW]
        dsimp only
        cases kvs with
        | nil =>
          rw [show printMembersRest ([] : List (String × Json)) ++ ('}' :: rest)
              = '}' :: rest from rfl]
          rw [skipWs_nws '}' (by decide)]
          dsimp only
          rw [if_neg (by decide), if_pos rfl]
        | cons kv2 kvs2 =>
          obtain ⟨k2, v2⟩ := kv2
          have htail : printMembersRest ((k2, v2) :: kvs2) ++ ('}' :: rest) =
              ',' :: (membersInner ((k2, v2) :: kvs2) ++ ('}' :: rest)) := by
            simp [printMembersRest, membersInner, List.append_assoc]
          have hsh2 : membersInner ((k2, v2) :: kvs2) ++ ('}' :: rest) =
              '"' :: (escapeChars k2.data ++ ('"' :: (':' :: (printJson v2 ++
                (printMembersRest kvs2 ++ ('}' :: rest)))))) := by
            simp [membersInner, printMember, printStrLit, List.append_assoc]
          rw [htail, skipWs_nws ',' (by decide)]
          dsimp only
          rw [if_pos rfl]
          rw [hsh2, skipWs_nws '"' (by decide), ← hsh2]
          rw [ihm ((k2, v2) :: kvs2) rest (by simp) (by
            simp [sizeFields] at hs ⊢
            have := sizeJ_pos v
            omega)]
    · intro l rest hl hs
      cases l with
      | nil => exact absurd rfl hl
      | cons x xs =>
        have hshape : elemsInner (x :: xs) ++ (']' :: rest) =
            printJson x ++ (printElemsRest xs ++ (']' :: rest)) := by
          simp [elemsInner, List.append_assoc]
        have hW : noDigitHead (printElemsRest xs ++ (']' :: rest)) = true := by
          cases xs with
          | nil => simp [printElemsRest, noDigitHead]
          | cons y ys => simp [printElemsRest, noDigitHead]
        have hsx : sizeJ x ≤ n := by
          simp [sizeElems] at hs
          omega
        rw [hshape, parseElems.eq_def]
        dsimp only
        rw [ihv x (printElemsRest xs ++ (']' :: rest)) hsx hW]
        dsimp only
        cases xs with
        | nil =>
          rw [show printElemsRest ([] : List Json) ++ (']' :: rest)
              = ']' :: rest from rfl]
          rw [skipWs_nws ']' (by decide)]
          dsimp only
          rw [if_neg (by decide), if_pos rfl]
        | cons y ys =>
          obtain ⟨c, cs, hpc, hws, hbr, hbk⟩ := printJson_head y
          have htail : printElemsRest (y :: ys) ++ (']' :: rest) =
              ',' :: (elemsInner (y :: ys) ++ (']' :: rest)) := by
            simp [printElemsRest, elemsInner, List.append_assoc]
          have hsh2 : elemsInner (y :: ys) ++ (']' :: rest) =
              c :: (cs ++ (printElemsRest ys ++ (']' :: rest))) := by
            simp [elemsInner, hpc, List.append_assoc]
          rw [htail, skipWs_nws ',' (by decide)]
          dsimp only
          rw [if_pos rfl]
          rw [hsh2, skipWs_nws c hws, ← hsh2]
          rw [ihe (y :: ys) rest (by simp) (by
            simp [sizeElems] at hs ⊢
            have := sizeJ_pos x
            omega)]

theorem size_le_print_fuel : ∀ n : Nat,
    (∀ j, sizeJ j ≤ n → sizeJ j ≤ (printJson j).length) ∧
    (∀ l, sizeFields l ≤ n → sizeFields l ≤ (membersInner l).length + 1) ∧
    (∀ l, sizeElems l ≤ n → sizeElems l ≤ (elemsInner l).length + 1) := by
  intro n
  induction n with
  | zero =>
    refine ⟨?_, ?_, ?_⟩
    · intro j hs
      exact absurd hs (by have := sizeJ_pos j; omega)
    · intro l hs
      cases l with
      | nil => simp [sizeFields, membersInner]
      | cons kv r => exact absurd hs (by have := sizeFields_pos_cons kv r; omega)
    · intro l hs
      cases l with
      | nil => simp [sizeElems, elemsInner]
      | cons v r => exact absurd hs (by have := sizeElems_pos_cons v r; omega)
  | succ n ih =>
    obtain ⟨ihv, ihm, ihe⟩ := ih
    refine ⟨?_, ?_, ?_⟩
    · intro j hs
      cases j with
      | null => simp [sizeJ, printJson]
      | bool b => cases b <;> simp [sizeJ, printJson]
      | num i =>
        have h1 : 1 ≤ (intText i).length := by
          unfold intText
          by_cases hneg : i < 0
          · simp [hneg]
          · rw [if_neg hneg]
            obtain ⟨hne, -, -⟩ := natText_spec i.toNat
            have := List.length_pos.mpr hne
            omega
        simpa [sizeJ, printJson] using h1
      | str s =>
        simp [sizeJ, printJson, printStrLit]
      | arr l =>
        cases l with
        | nil => simp [sizeJ, sizeElems, printJson]
        | cons x xs =>
          have h := ihe (x :: xs) (by simp [sizeJ] at hs; omega)
          have hlen : (printJson (.arr (x :: xs))).length =
              (elemsInner (x :: xs)).length + 2 := by
            simp [printJson, elemsInner]
            omega
          rw [show sizeJ (.arr (x :: xs)) = sizeElems (x :: xs) + 1 from rfl, hlen]
          omega
      | obj l =>
        cases l with
        | nil => simp [sizeJ, sizeFields, printJson]
        | cons kv kvs =>
          obtain ⟨k, v⟩ := kv
          have h := ihm ((k, v) :: kvs) (by simp [sizeJ] at hs; omega)
          have hlen : (printJson (.obj ((k, v) :: kvs))).length =
              (membersInner ((k, v) :: kvs)).length + 2 := by
            simp [printJson, membersInner]
            omega
          rw [show sizeJ (.obj ((k, v) :: kvs)) = sizeFields ((k, v) :: kvs) + 1 from rfl,
            hlen]
          omega
    · intro l hl
      cases l with
      | nil => simp [sizeFields, membersInner]
      | cons kv kvs =>
        obtain ⟨k, v⟩ := kv
        have hv1 : sizeJ v ≤ (printJson v).length := by
          refine ihv v ?_
          simp [sizeFields] at hl
          omega
        have hpm : (printMember (k, v)).length = (printStrLit k).length + 1 +
            (printJson v).length := by
          simp [printMember]
          omega
        have hsl : 2 ≤ (printStrLit k).length := by
          simp [printStrLit]
        cases kvs with
        | nil =>
          rw [show sizeFields [(k, v)] = sizeJ v + 1 from by simp [sizeFields]; omega]
          rw [show (membersInner [(k, v)]).length = (printMember (k, v)).length from by
            simp [membersInner, printMembersRest]]
          omega
        | cons kv2 kvs2 =>
          have h2 : sizeFields (kv2 :: kvs2) ≤ (membersInner (kv2 :: kvs2)).length + 1 := by
            refine ihm (kv2 :: kvs2) ?_
            simp [sizeFields] at hl ⊢
            have := sizeJ_pos v
            omega
          have hli : (membersInner ((k, v) :: kv2 :: kvs2)).length =
              (printMember (k, v)).length + 1 + (membersInner (kv2 :: kvs2)).length := by
            simp [membersInner, printMembersRest]
            omega
          rw [show sizeFields ((k, v) :: kv2 :: kvs2) =
            sizeJ v + sizeFields (kv2 :: kvs2) + 1 from by simp [sizeFields]; omega, hli]
          omega
    · intro l hl
      cases l with
      | nil => simp [sizeElems, elemsInner]
      | cons x xs =>
        have hx1 : sizeJ x ≤ (printJson x).length := by
          refine ihv x ?_
          simp [sizeElems] at hl
          omega
        cases xs with
        | nil =>
          rw [show sizeElems [x] = sizeJ x + 1 from by simp [sizeElems]; omega]
          rw [show (elemsInner [x]).length = (printJson x).length from by
            simp [elemsInner, printElemsRest]]
          omega
        | cons y ys =>
          have h2 : sizeElems (y :: ys) ≤ (elemsInner (y :: ys)).length + 1 := by
            refine ihe (y :: ys) ?_
            simp [sizeElems] at hl ⊢
            have := sizeJ_pos x
            omega
          have hli : (elemsInner (x :: y :: ys)).length =
              (printJson x).length + 1 + (elemsInner (y :: ys)).length := by
            simp [elemsInner, printElemsRest]
            omega
          rw [show sizeElems (x :: y :: ys) = sizeJ x + sizeElems (y :: ys) + 1 from by
            simp [sizeElems]; omega, hli]
          omega

/-- Round-trip of the JSON codec model: parsing a printed value recovers
it exactly. -/
theorem parseJson_printJson (j : Json) : parseJson (printJson j) = some j := by
  obtain ⟨hv, -, -⟩ := roundtrip_fuel ((printJson j).length + 1)
  have hs : sizeJ j ≤ (printJson j).length + 1 := by
    obtain ⟨h, -, -⟩ := size_le_print_fuel (sizeJ j)
    have := h j le_rfl
    omega
  have hr := hv j [] hs (by simp [noDigitHead])
  rw [List.append_nil] at hr
  unfold parseJson
  rw [hr]
  simp [skipWs]

/-! ### Submission codec (`submissionStore.js`)

`CryptoJS.AES` under the static passphrase is a platform primitive; it is
modelled symbolically: a blob records the plaintext together with the
passphrase it was produced under, decryption with the matching passphrase
recovers the plaintext (AES correctness), and decryption under any other
passphrase is modelled as failing the UTF-8 stage.  Whether a wrong-key
decryption could ever emerge as valid UTF-8 *and* valid JSON is a
property of the AES byte permutation itself and is outside this
embedding (see C6). -/

/-- The static passphrase baked into the client (`ENCRYPTION_KEY`). -/
def encryptionKey : String := "secure-digital-wallet-2024"

/-- Symbolic AES ciphertext blob. -/
structure CipherBlob where
  payload : List Char
  keyTag : String
deriving DecidableEq, Repr

/-- `CryptoJS.AES.decrypt(blob, key).toString(CryptoJS.enc.Utf8)`: `none`
models garbage bytes that fail UTF-8 decoding (a thrown error). -/
def aesDecryptUtf8 (b : CipherBlob) (key : String) : Option (List Char) :=
  if b.keyTag = key then some b.payload else none

/-- `encryptSubmissionData`: JSON-serialise, then encrypt; `null` (`none`)
would be returned if serialisation threw, which cannot happen for the
model's `Json` values. -/
def encryptSubmissionData (data : Json) : Option CipherBlob :=
  some ⟨printJson data, encryptionKey⟩

/-- `decryptSubmissionData`: decrypt, UTF-8 decode, `JSON.parse`; every
failure inside is caught and surfaces as `null` (`none`). -/
def decryptSubmissionData (b : CipherBlob) : Option Json :=
  match aesDecryptUtf8 b encryptionKey with
  | none => none
  | some s => parseJson s

/-- C5: decrypting the result of encrypting any serialisable record
yields the record again. -/
theorem c5_codec_roundtrip (r : Json) :
    (encryptSubmissionData r).bind decryptSubmissionData = some r := by
  have h : decryptSubmissionData ⟨printJson r, encryptionKey⟩ = some r := by
    unfold decryptSubmissionData aesDecryptUtf8
    rw [if_pos rfl]
    exact parseJson_printJson r
  simpa [encryptSubmissionData] using h

/-! ### Bulk read (`getSubmissions`) -/

/-- A stored submission row as persisted by `addSubmission`;
`encryptedData = none` models a missing (or falsy) field. -/
structure StoredRow where
  id : Nat
  encryptedData : Option CipherBlob
  submittedAt : String
  status : Option String
deriving DecidableEq, Repr

/-- JavaScript object-literal update (later key wins): replace the value
of an existing key in place, otherwise append the pair.  (JavaScript
objects never hold a key twice, so replacing the first occurrence is
exact.) -/
def jsSet : List (String × Json) → String → Json → List (String × Json)
  | [], k, v => [(k, v)]
  | p :: r, k, v => if p.1 = k then (k, v) :: r else p :: jsSet r k v

/-- First value stored under a key. -/
def jsGet (l : List (String × Json)) (k : String) : Option Json :=
  (l.find? (fun p => p.1 = k)).map Prod.snd

/-- The fields contributed by `...decryptedData`: the own fields of an
object, nothing for the other JSON values (a bare-string payload, whose
spread in JavaScript would contribute index keys, does not occur for the
records this store handles). -/
def spreadFields : Json → List (String × Json)
  | .obj l => l
  | _ => []

/-- The `status: submission.status || 'pending'` defaulting. -/
def statusOr (st : Option String) : String :=
  match st with
  | none => "pending"
  | some s => if s = "" then "pending" else s

/-- The decorated record
`{id: row.id, ...decryptedData, submittedAt: ..., status: ...}`:
the spread comes after `id`, so a payload field called `id` overrides the
stored id, while `submittedAt` and `status` are written after the spread
and always win. -/
def decorate (row : StoredRow) (d : Json) : List (String × Json) :=
  jsSet (jsSet ((spreadFields d).foldl (fun acc kv => jsSet acc kv.1 kv.2)
      [("id", .num row.id)])
    "submittedAt" (.str row.submittedAt))
    "status" (.str (statusOr row.status))

/-- `getSubmissions`: decrypt every stored row; rows without
`encryptedData` and rows that fail to decrypt are dropped silently. -/
def getSubmissions (rows : List StoredRow) : List (List (String × Json)) :=
  rows.filterMap (fun row =>
    match row.encryptedData with
    | none => none
    | some blob =>
      match decryptSubmissionData blob with
      | none => none
      | some d => some (decorate row d))

theorem jsGet_jsSet_self (k : String) (v : Json) :
    ∀ l, jsGet (jsSet l k v) k = some v := by
  intro l
  induction l with
  | nil => simp [jsSet, jsGet]
  | cons p r ih =>
    by_cases hp : p.1 = k
    · simp [jsSet, hp, jsGet]
    · simpa [jsSet, hp, jsGet, List.find?_cons] using ih

theorem jsGet_jsSet_other (k q : String) (hne : ¬ q = k) (v : Json) :
    ∀ l, jsGet (jsSet l k v) q = jsGet l q := by
  intro l
  induction l with
  | nil =>
    have h1 : ¬ (k = q) := fun h => hne h.symm
    simp [jsSet, jsGet, h1]
  | cons p r ih =>
    by_cases hp : p.1 = k
    · have h1 : ¬ (k = q) := fun h => hne h.symm
      have h2 : ¬ (p.1 = q) := by rw [hp]; exact h1
      simp [jsSet, hp, jsGet, List.find?_cons, h1, h2]
    · by_cases hq : p.1 = q
      · rw [show jsSet (p :: r) k v = p :: jsSet r k v from by simp [jsSet, hp]]
        simp [jsGet, List.find?_cons, hq]
      · rw [show jsSet (p :: r) k v = p :: jsSet r k v from by simp [jsSet, hp]]
        simpa [jsGet, List.find?_cons, hq] using ih

theorem jsGet_fold_no_id : ∀ (fs : List (String × Json)) (acc : List (String × Json)),
    (∀ kv ∈ fs, ¬ kv.1 = "id") →
    jsGet (fs.foldl (fun a kv => jsSet a kv.1 kv.2) acc) "id" = jsGet acc "id" := by
  intro fs
  induction fs with
  | nil => intro acc _; rfl
  | cons kv fs ih =>
    intro acc hid
    rw [List.foldl_cons, ih _ (fun x hx => hid x (by simp [hx]))]
    exact jsGet_jsSet_other kv.1 "id" (fun h => hid kv (by simp) (by rw [h])) kv.2 acc

/-- C8 (amended): `getSubmissions` returns exactly the decorations of the
rows whose `encryptedData` is present and decrypts; rows with a missing
blob or a failing decryption are dropped without affecting the rest and
without surfacing an error.  Each returned record carries the stored
`submittedAt` and (defaulted) `status` — those are spread after the
payload — while the stored `id` is carried only when the decrypted
payload does not itself contain an `id` field, which would shadow it. -/
theorem c8_bulk_read (rows : List StoredRow) :
    (∀ o, o ∈ getSubmissions rows ↔
      ∃ row, row ∈ rows ∧ ∃ blob d, row.encryptedData = some blob ∧
        decryptSubmissionData blob = some d ∧ o = decorate row d) ∧
    (∀ row d, jsGet (decorate row d) "submittedAt" = some (.str row.submittedAt) ∧
      jsGet (decorate row d) "status" = some (.str (statusOr row.status)) ∧
      ((∀ kv ∈ spreadFields d, ¬ kv.1 = "id") →
        jsGet (decorate row d) "id" = some (.num row.id))) ∧
    (∀ pre bad post, (bad.encryptedData = none ∨
        (∃ blob, bad.encryptedData = some blob ∧ decryptSubmissionData blob = none)) →
      getSubmissions (pre ++ bad :: post) = getSubmissions pre ++ getSubmissions post) := by
  refine ⟨?_, ?_, ?_⟩
  · intro o
    simp only [getSubmissions, List.mem_filterMap]
    constructor
    · rintro ⟨row, hmem, hf⟩
      cases hb : row.encryptedData with
      | none => rw [hb] at hf; cases hf
      | some blob =>
        rw [hb] at hf
        dsimp only at hf
        cases hd : decryptSubmissionData blob with
        | none => rw [hd] at hf; cases hf
        | some d =>
          rw [hd] at hf
          exact ⟨row, hmem, blob, d, hb, hd, (Option.some.inj hf).symm⟩
    · rintro ⟨row, hmem, blob, d, hb, hd, rfl⟩
      refine ⟨row, hmem, ?_⟩
      rw [hb]
      dsimp only
      rw [hd]
  · intro row d
    refine ⟨?_, ?_, ?_⟩
    · unfold decorate
      rw [jsGet_jsSet_other "status" "submittedAt" (by decide)]
      exact jsGet_jsSet_self "submittedAt" _ _
    · unfold decorate
      exact jsGet_jsSet_self "status" _ _
    · intro hid
      unfold decorate
      rw [jsGet_jsSet_other "status" "id" (by decide),
        jsGet_jsSet_other "submittedAt" "id" (by decide),
        jsGet_fold_no_id (spreadFields d) _ hid]
      rfl
  · intro pre bad post hbad
    have hnone : (match bad.encryptedData with
        | none => none
        | some blob =>
          match decryptSubmissionData blob with
          | none => none
          | some d => some (decorate bad d)) = (none : Option (List (String × Json))) := by
      rcases hbad with hb | ⟨blob, hb, hd⟩
      · rw [hb]
      · rw [hb]
        dsimp only
        rw [hd]
    simp only [getSubmissions, List.filterMap_append, List.filterMap_cons, hnone]

/-- The decrypted payload of the C8 counterexample: it carries its own
`id` field. -/
def shadowPayload : Json := .obj [("id", .num 999), ("name", .str "Eve")]

/-- A stored row with id 1 whose encrypted payload contains `id: 999`. -/
def rowShadow : StoredRow :=
  ⟨1, some ⟨printJson shadowPayload, encryptionKey⟩, "2024-01-01T00:00:00Z",
    some "pending"⟩

/-- C8 counterexample: the record returned for `rowShadow` does not carry
the stored id 1 — the payload's own `id` field (999) shadows it in the
object spread. -/
theorem c8_counterexample :
    rowShadow.id = 1 ∧
    getSubmissions [rowShadow] = [decorate rowShadow shadowPayload] ∧
    jsGet (decorate rowShadow shadowPayload) "id" = some (.num 999) ∧
    ¬ jsGet (decorate rowShadow shadowPayload) "id" = some (.num 1) := by
  refine ⟨rfl, rfl, rfl, by decide⟩

/-- A well-formed submission payload (no `id` field of its own). -/
def goodPayload : Json :=
  .obj [("name", .str "Jane Doe"), ("username", .str "jane")]

/-- A row that decrypts cleanly. -/
def rowGood : StoredRow := ⟨5, some ⟨printJson goodPayload, encryptionKey⟩, "t1", none⟩

/-- A row with the `encryptedData` field missing. -/
def rowMissing : StoredRow := ⟨6, none, "t2", some "pending"⟩

/-- A row encrypted under a different key: decryption fails. -/
def rowWrongKey : StoredRow :=
  ⟨8, some ⟨printJson goodPayload, "other-key"⟩, "t3", some "verified"⟩

/-- C8 witness. -/
theorem c8_bulk_read_witness :
    (∀ o, o ∈ getSubmissions [rowGood, rowMissing, rowWrongKey] ↔
      ∃ row, row ∈ [rowGood, rowMissing, rowWrongKey] ∧
        ∃ blob d, row.encryptedData = some blob ∧
          decryptSubmissionData blob = some d ∧ o = decorate row d) ∧
    (∀ row d, jsGet (decorate row d) "submittedAt" = some (.str row.submittedAt) ∧
      jsGet (decorate row d) "status" = some (.str (statusOr row.status)) ∧
      ((∀ kv ∈ spreadFields d, ¬ kv.1 = "id") →
        jsGet (decorate row d) "id" = some (.num row.id))) ∧
    (∀ pre bad post, (bad.encryptedData = none ∨
        (∃ blob, bad.encryptedData = some blob ∧ decryptSubmissionData blob = none)) →
      getSubmissions (pre ++ bad :: post) = getSubmissions pre ++ getSubmissions post) :=
  c8_bulk_read [rowGood, rowMissing, rowWrongKey]

/-! ### QR payload decoder (`qrParser.js`)

`parseQRData` layers four platform primitives: `new URL` with
`searchParams.get`, `decodeURIComponent`, `JSON.parse` and `atob`.  Each
is modelled below at the character level.  UTF-8 handling covers one-,
two- and three-byte sequences (astral-plane text, which JavaScript
represents with surrogate pairs, is outside the model; the claims about
this decoder are stated for ASCII payloads). -/

/-- Characters left unescaped by `encodeURIComponent`. -/
def isUnreservedURI (c : Char) : Bool :=
  c.isAlpha || c.isDigit || c = '-' || c = '_' || c = '.' || c = '!' ||
    c = '~' || c = '*' || c = Char.ofNat 39 || c = '(' || c = ')'

/-- UTF-8 bytes of a character. -/
def utf8Bytes (c : Char) : List Nat :=
  let v := c.toNat
  if v < 128 then [v]
  else if v < 2048 then [192 + v / 64, 128 + v % 64]
  else if v < 65536 then [224 + v / 4096, 128 + (v / 64) % 64, 128 + v % 64]
  else [240 + v / 262144, 128 + (v / 4096) % 64, 128 + (v / 64) % 64, 128 + v % 64]

/-- Percent-escape of one byte (uppercase hex, as `encodeURIComponent`
produces). -/
def percentByte (b : Nat) : List Char :=
  ['%', hexUpper (b / 16), hexUpper (b % 16)]

/-- Encoding of one character. -/
def encChar (c : Char) : List Char :=
  if isUnreservedURI c then [c]
  else (utf8Bytes c).foldr (fun b acc => percentByte b ++ acc) []

/-- Model of `encodeURIComponent`. -/
def percentEncode : List Char → List Char
  | [] => []
  | c :: r => encChar c ++ percentEncode r

mutual

/-- Model of `decodeURIComponent`: `none` models the thrown `URIError`
(malformed escape or invalid UTF-8).  Split into small mutual helpers,
one per UTF-8 arity. -/
def percentDecodeStrict : List Char → Option (List Char)
  | [] => some []
  | c :: r =>
    if c = '%' then pdsEsc r
    else
      match percentDecodeStrict r with
      | some cs => some (c :: cs)
      | none => none

def pdsEsc : List Char → Option (List Char)
  | h1 :: h2 :: r2 =>
    match hexVal h1, hexVal h2 with
    | some a, some b =>
      if a * 16 + b < 128 then
        match percentDecodeStrict r2 with
        | some cs => some (Char.ofNat (a * 16 + b) :: cs)
        | none => none
      else if 194 ≤ a * 16 + b ∧ a * 16 + b ≤ 223 then pdsEsc2 (a * 16 + b) r2
      else if 224 ≤ a * 16 + b ∧ a * 16 + b ≤ 239 then pdsEsc3 (a * 16 + b) r2
      else none
    | _, _ => none
  | _ => none

def pdsEsc2 (v : Nat) : List Char → Option (List Char)
  | c2 :: h3 :: h4 :: r3 =>
    if c2 = '%' then
      match hexVal h3, hexVal h4 with
      | some a2, some b2 =>
        if 128 ≤ a2 * 16 + b2 ∧ a2 * 16 + b2 ≤ 191 then
          match percentDecodeStrict r3 with
          | some cs => some (Char.ofNat ((v - 192) * 64 + (a2 * 16 + b2 - 128)) :: cs)
          | none => none
        else none
      | _, _ => none
    else none
  | _ => none

def pdsEsc3 (v : Nat) : List Char → Option (List Char)
  | c2 :: h3 :: h4 :: c3 :: h5 :: h6 :: r3 =>
    if c2 = '%' ∧ c3 = '%' then
      match hexVal h3, hexVal h4, hexVal h5, hexVal h6 with
      | some a2, some b2, some a3, some b3 =>
        if (128 ≤ a2 * 16 + b2 ∧ a2 * 16 + b2 ≤ 191) ∧
            (128 ≤ a3 * 16 + b3 ∧ a3 * 16 + b3 ≤ 191) then
          match percentDecodeStrict r3 with
          | some cs =>
            some (Char.ofNat ((v - 224) * 4096 + (a2 * 16 + b2 - 128) * 64 +
              (a3 * 16 + b3 - 128)) :: cs)
          | none => none
        else none
      | _, _, _, _ => none
    else none
  | _ => none

end

/-- Model of form-decoding as `URLSearchParams` performs it: lenient — a
malformed escape passes through unchanged, an isolated high byte becomes
U+FFFD.  Driven by fuel (the input length suffices, every step consuming
at least one character). -/
def pdLenientGo : Nat → List Char → List Char
  | 0, _ => []
  | _, [] => []
  | fuel + 1, c :: r =>
    if c = '%' then
      match r with
      | h1 :: h2 :: r2 =>
        match hexVal h1, hexVal h2 with
        | some a, some b =>
          let v := a * 16 + b
          if v < 128 then Char.ofNat v :: pdLenientGo fuel r2
          else if 194 ≤ v ∧ v ≤ 223 then
            match r2 with
            | c2 :: h3 :: h4 :: r3 =>
              if c2 = '%' then
                match hexVal h3, hexVal h4 with
                | some a2, some b2 =>
                  let w := a2 * 16 + b2
                  if 128 ≤ w ∧ w ≤ 191 then
                    Char.ofNat ((v - 192) * 64 + (w - 128)) :: pdLenientGo fuel r3
                  else Char.ofNat 65533 :: pdLenientGo fuel r3
                | _, _ => Char.ofNat 65533 :: pdLenientGo fuel r2
              else Char.ofNat 65533 :: pdLenientGo fuel r2
            | _ => Char.ofNat 65533 :: pdLenientGo fuel r2
          else Char.ofNat 65533 :: pdLenientGo fuel r2
        | _, _ => c :: pdLenientGo fuel r
      | _ => c :: pdLenientGo fuel r
    else c :: pdLenientGo fuel r

/-- Lenient percent-decoding at full fuel. -/
def percentDecodeLenient (l : List Char) : List Char :=
  pdLenientGo l.length l

/-- `'+'` to space, the first half of form decoding. -/
def plusToSpace (l : List Char) : List Char :=
  l.map (fun c => if c = '+' then ' ' else c)

/-- The decoding `URLSearchParams.get` applies to keys and values. -/
def formDecode (l : List Char) : List Char :=
  percentDecodeLenient (plusToSpace l)

/-- `payload.replace(/\+/g, '%20')` as performed before the second
(strict) decode in `parseQRData`. -/
def plusTo20 : List Char → List Char
  | [] => []
  | c :: r => (if c = '+' then ['%', '2', '0'] else [c]) ++ plusTo20 r

/-! ### Base64 (`btoa` / `atob`) -/

/-- The base64 alphabet. -/
def b64Char (n : Nat) : Char :=
  if n < 26 then Char.ofNat (65 + n)
  else if n < 52 then Char.ofNat (97 + (n - 26))
  else if n < 62 then Char.ofNat (48 + (n - 52))
  else if n = 62 then '+'
  else '/'

/-- Value of a base64 character. -/
def b64Val (c : Char) : Option Nat :=
  if 'A' ≤ c ∧ c ≤ 'Z' then some (c.toNat - 65)
  else if 'a' ≤ c ∧ c ≤ 'z' then some (c.toNat - 71)
  else if '0' ≤ c ∧ c ≤ '9' then some (c.toNat - 48 + 52)
  else if c = '+' then some 62
  else if c = '/' then some 63
  else none

/-- Model of `btoa` over the byte codes of the input string. -/
def btoaModel : List Nat → List Char
  | [] => []
  | [b1] => [b64Char (b1 / 4), b64Char ((b1 % 4) * 16), '=', '=']
  | [b1, b2] =>
    [b64Char (b1 / 4), b64Char ((b1 % 4) * 16 + b2 / 16), b64Char ((b2 % 16) * 4), '=']
  | b1 :: b2 :: b3 :: r =>
    b64Char (b1 / 4) :: b64Char ((b1 % 4) * 16 + b2 / 16) ::
      b64Char ((b2 % 16) * 4 + b3 / 64) :: b64Char (b3 % 64) :: btoaModel r

/-- ASCII whitespace ignored by `atob` (forgiving base64). -/
def isB64Ws (c : Char) : Bool :=
  c = ' ' || c = '\t' || c = '\n' || c = '\r' || c = Char.ofNat 12

/-- Grouped base64 decoding; `'='` padding is accepted only at the very
end, and a leftover single character is rejected — `none` models the
thrown `InvalidCharacterError`. -/
def atobGo : List Char → Option (List Nat)
  | [] => some []
  | [_] => none
  | [c1, c2] =>
    match b64Val c1, b64Val c2 with
    | some a, some b => some [a * 4 + b / 16]
    | _, _ => none
  | [c1, c2, c3] =>
    match b64Val c1, b64Val c2, b64Val c3 with
    | some a, some b, some c => some [a * 4 + b / 16, (b % 16) * 16 + c / 4]
    | _, _, _ => none
  | c1 :: c2 :: c3 :: c4 :: r =>
    if c3 = '=' then
      if c4 = '=' ∧ r = [] then
        match b64Val c1, b64Val c2 with
        | some a, some b => some [a * 4 + b / 16]
        | _, _ => none
      else none
    else if c4 = '=' then
      if r = [] then
        match b64Val c1, b64Val c2, b64Val c3 with
        | some a, some b, some c => some [a * 4 + b / 16, (b % 16) * 16 + c / 4]
        | _, _, _ => none
      else none
    else
      match b64Val c1, b64Val c2, b64Val c3, b64Val c4 with
      | some a, some b, some c, some d =>
        match atobGo r with
        | some bs =>
          some ((a * 4 + b / 16) :: ((b % 16) * 16 + c / 4) :: ((c % 4) * 64 + d) :: bs)
        | none => none
      | _, _, _, _ => none

/-- Model of `atob`: strip ASCII whitespace, decode, and return the
byte string as characters. -/
def atobModel (l : List Char) : Option (List Char) :=
  match atobGo (l.filter (fun c => !isB64Ws c)) with
  | some bs => some (bs.map Char.ofNat)
  | none => none

/-! ### URL and query-string model (`new URL` + `searchParams.get`) -/

/-- Split at the first occurrence of a character; the second component is
`none` when the character does not occur. -/
def splitAtFirst (c : Char) : List Char → (List Char × Option (List Char))
  | [] => ([], none)
  | x :: r =>
    if x = c then ([], some r)
    else
      match splitAtFirst c r with
      | (a, b) => (x :: a, b)

/-- Split on every occurrence of a character. -/
def splitOnChar (c : Char) : List Char → List (List Char)
  | [] => [[]]
  | x :: r =>
    if x = c then [] :: splitOnChar c r
    else
      match splitOnChar c r with
      | [] => [[x]]
      | a :: rs => (x :: a) :: rs

/-- A valid URL scheme: a letter followed by letters, digits, `+`, `-`,
`.`. -/
def schemeOk : List Char → Bool
  | [] => false
  | c :: r =>
    c.isAlpha && (c :: r).all (fun x => x.isAlpha || x.isDigit || x = '+' || x = '-' || x = '.')

/-- Model of `new URL(input)` restricted to what `parseQRData` uses: the
query string (after `?`, before `#`), or `none` when the input is not an
absolute URL (the constructor throws). -/
def parseURLQuery (s : List Char) : Option (List Char) :=
  match splitAtFirst ':' s with
  | (_, none) => none
  | (pre, some _) =>
    if schemeOk pre then
      match splitAtFirst '#' s with
      | (beforeHash, _) =>
        match splitAtFirst '?' beforeHash with
        | (_, some q) => some q
        | (_, none) => some []
    else none

/-- `searchParams.get(name)`: first `k=v` pair whose form-decoded key
matches; `none` when absent. -/
def getQueryParam (q : List Char) (name : List Char) : Option (List Char) :=
  (splitOnChar '&' q).findSome? (fun piece =>
    match splitAtFirst '=' piece with
    | (kk, vv) =>
      if formDecode kk = name then
        some (formDecode (match vv with | some v => v | none => []))
      else none)

/-- JavaScript `a || b` over nullable strings: an empty string is falsy. -/
def orFalsy (a b : Option (List Char)) : Option (List Char) :=
  match a with
  | some v => if v = [] then b else some v
  | none => b

/-- The payload lookup chain `data || payload || q || p`, normalised so
that a missing or empty (falsy) result is `none`. -/
def getPayloadParam (q : List Char) : Option (List Char) :=
  match orFalsy (getQueryParam q ['d', 'a', 't', 'a'])
      (orFalsy (getQueryParam q ['p', 'a', 'y', 'l', 'o', 'a', 'd'])
        (orFalsy (getQueryParam q ['q']) (getQueryParam q ['p']))) with
  | some v => if v = [] then none else some v
  | none => none

/-! ### `parseQRData` -/

/-- Strategy 3: `JSON.parse(atob(input))`. -/
def strategyAtob (inp : List Char) : Option Json :=
  match atobModel inp with
  | some txt => parseJson txt
  | none => none

/-- Strategies 1-3 of `parseQRData`: plain `JSON.parse`, then
URL-decoding (with `+` → `%20`) and `JSON.parse`, then base64 and
`JSON.parse`.  A strict-decode failure is caught and falls through to
base64. -/
def jsonParseStrategies (inp : List Char) : Option Json :=
  match parseJson inp with
  | some j => some j
  | none =>
    match percentDecodeStrict (plusTo20 inp) with
    | some dec =>
      match parseJson dec with
      | some j => some j
      | none => strategyAtob inp
    | none => strategyAtob inp

/-- Model of `parseQRData` (`qrParser.js`): try the URL route first —
extract a payload parameter, decode it a second time, parse; when the
second decode throws, the original input goes through strategies 1-3;
when only the JSON parse of the decoded payload fails, the decoded text
goes through strategies 1-3.  `none` models the final thrown parse
failure. -/
def parseQRData (input : List Char) : Option Json :=
  match parseURLQuery input with
  | none => jsonParseStrategies input
  | some q =>
    match getPayloadParam q with
    | none => jsonParseStrategies input
    | some payload =>
      match percentDecodeStrict (plusTo20 payload) with
      | none => jsonParseStrategies input
      | some decoded =>
        match parseJson decoded with
        | some j => some j
        | none => jsonParseStrategies decoded

/-! ### Properties of the encoders -/

theorem percentEncode_chars : ∀ s : List Char, (∀ c ∈ s, c.toNat < 128) →
    ∀ x ∈ percentEncode s, isUnreservedURI x = true ∨ x = '%' := by
  have hU : ∀ d, d < 16 → isUnreservedURI (hexUpper d) = true := by decide
  intro s
  induction s with
  | nil => intro _ x hx; simp [percentEncode] at hx
  | cons c cs ih =>
    intro hasc x hx
    rw [show percentEncode (c :: cs) = encChar c ++ percentEncode cs from rfl] at hx
    rcases List.mem_append.mp hx with hx | hx
    · by_cases hun : isUnreservedURI c = true
      · rw [show encChar c = [c] from by simp [encChar, hun]] at hx
        simp at hx
        subst hx
        exact Or.inl hun
      · have hv : c.toNat < 128 := hasc c (by simp)
        rw [show encChar c = ['%', hexUpper (c.toNat / 16), hexUpper (c.toNat % 16)]
            from by simp [encChar, hun, utf8Bytes, hv, percentByte]] at hx
        simp only [List.mem_cons, List.mem_singleton] at hx
        rcases hx with rfl | rfl | rfl | hx
        · exact Or.inr rfl
        · exact Or.inl (hU _ (by omega))
        · exact Or.inl (hU _ (by omega))
        · simp at hx
    · exact ih (fun y hy => hasc y (by simp [hy])) x hx

theorem percentEncode_not_mem (s : List Char) (hasc : ∀ c ∈ s, c.toNat < 128)
    (x : Char) (hx1 : isUnreservedURI x = false) (hx2 : ¬ x = '%') :
    x ∉ percentEncode s := by
  intro hm
  rcases percentEncode_chars s hasc x hm with h | h
  · rw [hx1] at h; cases h
  · exact hx2 h

theorem plusTo20_id : ∀ l : List Char, '+' ∉ l → plusTo20 l = l := by
  intro l
  induction l with
  | nil => intro _; rfl
  | cons c r ih =>
    intro h
    have hc : ¬ c = '+' := fun he => h (by simp [he])
    rw [show plusTo20 (c :: r) = (if c = '+' then ['%', '2', '0'] else [c]) ++ plusTo20 r
      from rfl, if_neg hc, ih (fun hm => h (by simp [hm]))]
    rfl

theorem plusToSpace_id : ∀ l : List Char, '+' ∉ l → plusToSpace l = l := by
  intro l
  induction l with
  | nil => intro _; rfl
  | cons c r ih =>
    intro h
    have hc : ¬ c = '+' := fun he => h (by simp [he])
    show (if c = '+' then ' ' else c) :: plusToSpace r = c :: r
    rw [if_neg hc, ih (fun hm => h (by simp [hm]))]

theorem pdStrict_id : ∀ l : List Char, '%' ∉ l → percentDecodeStrict l = some l := by
  intro l
  induction l with
  | nil => intro _; rfl
  | cons c r ih =>
    intro h
    have hc : ¬ c = '%' := fun he => h (by simp [he])
    rw [percentDecodeStrict.eq_def]
    dsimp only
    rw [if_neg hc, ih (fun hm => h (by simp [hm]))]

theorem pdStrict_cons_npct {c : Char} (hc : ¬ c = '%') (r : List Char) :
    percentDecodeStrict (c :: r) =
      match percentDecodeStrict r with
      | some cs => some (c :: cs)
      | none => none := by
  rw [percentDecodeStrict.eq_def]
  dsimp only
  rw [if_neg hc]

theorem pdStrict_encode : ∀ s : List Char, (∀ c ∈ s, c.toNat < 128) →
    percentDecodeStrict (percentEncode s) = some s := by
  have h16 : ∀ d, d < 16 → hexVal (hexUpper d) = some d := by decide
  intro s
  induction s with
  | nil => intro _; rfl
  | cons c cs ih =>
    intro hasc
    have hv : c.toNat < 128 := hasc c (by simp)
    have ihr := ih (fun y hy => hasc y (by simp [hy]))
    by_cases hun : isUnreservedURI c = true
    · rw [show percentEncode (c :: cs) = c :: percentEncode cs from by
        simp [percentEncode, encChar, hun]]
      have hc : ¬ c = '%' := by
        intro he
        subst he
        exact absurd hun (by decide)
      rw [pdStrict_cons_npct hc, ihr]
    · rw [show percentEncode (c :: cs) =
          '%' :: hexUpper (c.toNat / 16) :: hexUpper (c.toNat % 16) :: percentEncode cs
        from by simp [percentEncode, encChar, hun, utf8Bytes, hv, percentByte]]
      rw [percentDecodeStrict.eq_def]
      dsimp only
      rw [if_pos rfl, pdsEsc.eq_def]
      dsimp only
      rw [h16 _ (by omega), h16 _ (by omega)]
      dsimp only
      rw [if_pos (by omega)]
      rw [ihr]
      dsimp only
      rw [show c.toNat / 16 * 16 + c.toNat % 16 = c.toNat from by omega, Char.ofNat_toNat]

theorem pdLenientGo_encode : ∀ (s : List Char) (fuel : Nat),
    (∀ c ∈ s, c.toNat < 128) → (percentEncode s).length ≤ fuel →
    pdLenientGo fuel (percentEncode s) = s := by
  have h16 : ∀ d, d < 16 → hexVal (hexUpper d) = some d := by decide
  intro s
  induction s with
  | nil =>
    intro fuel _ _
    cases fuel <;> rfl
  | cons c cs ih =>
    intro fuel hasc hfuel
    have hv : c.toNat < 128 := hasc c (by simp)
    have hasc' : ∀ y ∈ cs, y.toNat < 128 := fun y hy => hasc y (by simp [hy])
    by_cases hun : isUnreservedURI c = true
    · rw [show percentEncode (c :: cs) = c :: percentEncode cs from by
        simp [percentEncode, encChar, hun]] at hfuel ⊢
      cases fuel with
      | zero => simp at hfuel
      | succ f =>
        have hc : ¬ c = '%' := by
          intro he
          subst he
          exact absurd hun (by decide)
        rw [pdLenientGo.eq_def]
        dsimp only
        rw [if_neg hc, ih f hasc' (by simp at hfuel; omega)]
    · rw [show percentEncode (c :: cs) =
          '%' :: hexUpper (c.toNat / 16) :: hexUpper (c.toNat % 16) :: percentEncode cs
        from by simp [percentEncode, encChar, hun, utf8Bytes, hv, percentByte]] at hfuel ⊢
      cases fuel with
      | zero => simp at hfuel
      | succ f =>
        rw [pdLenientGo.eq_def]
        dsimp only
        rw [if_pos rfl]
        rw [h16 _ (by omega), h16 _ (by omega)]
        dsimp only
        rw [if_pos (by omega)]
        rw [ih f hasc' (by simp at hfuel; omega)]
        rw [show c.toNat / 16 * 16 + c.toNat % 16 = c.toNat from by omega, Char.ofNat_toNat]

theorem formDecode_encode (s : List Char) (hasc : ∀ c ∈ s, c.toNat < 128) :
    formDecode (percentEncode s) = s := by
  unfold formDecode percentDecodeLenient
  rw [plusToSpace_id _ (percentEncode_not_mem s hasc '+' (by decide) (by decide))]
  exact pdLenientGo_encode s _ hasc le_rfl

theorem btoaModel_chars : ∀ bs : List Nat, (∀ b ∈ bs, b < 256) →
    ∀ x ∈ btoaModel bs, (∃ k, k < 64 ∧ x = b64Char k) ∨ x = '='
  | [], _, x, hx => by simp [btoaModel] at hx
  | [b1], h, x, hx => by
    have hb1 : b1 < 256 := h b1 (by simp)
    rw [show btoaModel [b1] = [b64Char (b1 / 4), b64Char ((b1 % 4) * 16), '=', '=']
      from rfl] at hx
    simp only [List.mem_cons, List.mem_singleton] at hx
    rcases hx with rfl | rfl | rfl | rfl | hx
    · exact Or.inl ⟨_, by omega, rfl⟩
    · exact Or.inl ⟨_, by omega, rfl⟩
    · exact Or.inr rfl
    · exact Or.inr rfl
    · simp at hx
  | [b1, b2], h, x, hx => by
    have hb1 : b1 < 256 := h b1 (by simp)
    have hb2 : b2 < 256 := h b2 (by simp)
    rw [show btoaModel [b1, b2] = [b64Char (b1 / 4), b64Char ((b1 % 4) * 16 + b2 / 16),
        b64Char ((b2 % 16) * 4), '='] from rfl] at hx
    simp only [List.mem_cons, List.mem_singleton] at hx
    rcases hx with rfl | rfl | rfl | rfl | hx
    · exact Or.inl ⟨_, by omega, rfl⟩
    · exact Or.inl ⟨_, by omega, rfl⟩
    · exact Or.inl ⟨_, by omega, rfl⟩
    · exact Or.inr rfl
    · simp at hx
  | b1 :: b2 :: b3 :: r, h, x, hx => by
    have hb1 : b1 < 256 := h b1 (by simp)
    have hb2 : b2 < 256 := h b2 (by simp)
    have hb3 : b3 < 256 := h b3 (by simp)
    rw [show btoaModel (b1 :: b2 :: b3 :: r) = b64Char (b1 / 4) ::
        b64Char ((b1 % 4) * 16 + b2 / 16) :: b64Char ((b2 % 16) * 4 + b3 / 64) ::
        b64Char (b3 % 64) :: btoaModel r from rfl] at hx
    simp only [List.mem_cons] at hx
    rcases hx with rfl | rfl | rfl | rfl | hx
    · exact Or.inl ⟨_, by omega, rfl⟩
    · exact Or.inl ⟨_, by omega, rfl⟩
    · exact Or.inl ⟨_, by omega, rfl⟩
    · exact Or.inl ⟨_, by omega, rfl⟩
    · exact btoaModel_chars r (fun b hb => h b (by simp [hb])) x hx

theorem btoaModel_not_b64Ws (bs : List Nat) (h : ∀ b ∈ bs, b < 256) :
    ∀ x ∈ btoaModel bs, (!isB64Ws x) = true := by
  have hws : ∀ k, k < 64 → isB64Ws (b64Char k) = false := by decide
  intro x hx
  rcases btoaModel_chars bs h x hx with ⟨k, hk, rfl⟩ | rfl
  · simp [hws k hk]
  · decide

theorem btoaModel_no_colon (bs : List Nat) (h : ∀ b ∈ bs, b < 256) :
    ∀ x ∈ btoaModel bs, ¬ x = ':' := by
  have hcl : ∀ k, k < 64 → ¬ b64Char k = ':' := by decide
  intro x hx
  rcases btoaModel_chars bs h x hx with ⟨k, hk, rfl⟩ | rfl
  · exact hcl k hk
  · decide

theorem atobGo_btoa : ∀ bs : List Nat, (∀ b ∈ bs, b < 256) →
    atobGo (btoaModel bs) = some bs
  | [], _ => rfl
  | [b1], h => by
    have hb1 : b1 < 256 := h b1 (by simp)
    have hv : ∀ k, k < 64 → b64Val (b64Char k) = some k := by decide
    rw [show btoaModel [b1] = [b64Char (b1 / 4), b64Char ((b1 % 4) * 16), '=', '=']
      from rfl]
    rw [atobGo.eq_def]
    dsimp only
    rw [if_pos rfl, if_pos ⟨rfl, rfl⟩]
    rw [hv _ (by omega), hv _ (by omega)]
    dsimp only
    rw [show b1 / 4 * 4 + b1 % 4 * 16 / 16 = b1 from by omega]
  | [b1, b2], h => by
    have hb1 : b1 < 256 := h b1 (by simp)
    have hb2 : b2 < 256 := h b2 (by simp)
    have hv : ∀ k, k < 64 → b64Val (b64Char k) = some k := by decide
    have hne : ∀ k, k < 64 → ¬ b64Char k = '=' := by decide
    rw [show btoaModel [b1, b2] = [b64Char (b1 / 4), b64Char ((b1 % 4) * 16 + b2 / 16),
        b64Char ((b2 % 16) * 4), '='] from rfl]
    rw [atobGo.eq_def]
    dsimp only
    rw [if_neg (hne _ (by omega)), if_pos rfl, if_pos rfl]
    rw [hv _ (by omega), hv _ (by omega), hv _ (by omega)]
    dsimp only
    rw [show b1 / 4 * 4 + (b1 % 4 * 16 + b2 / 16) / 16 = b1 from by omega,
      show (b1 % 4 * 16 + b2 / 16) % 16 * 16 + b2 % 16 * 4 / 4 = b2 from by omega]
  | b1 :: b2 :: b3 :: r, h => by
    have hb1 : b1 < 256 := h b1 (by simp)
    have hb2 : b2 < 256 := h b2 (by simp)
    have hb3 : b3 < 256 := h b3 (by simp)
    have hv : ∀ k, k < 64 → b64Val (b64Char k) = some k := by decide
    have hne : ∀ k, k < 64 → ¬ b64Char k = '=' := by decide
    rw [show btoaModel (b1 :: b2 :: b3 :: r) = b64Char (b1 / 4) ::
        b64Char ((b1 % 4) * 16 + b2 / 16) :: b64Char ((b2 % 16) * 4 + b3 / 64) ::
        b64Char (b3 % 64) :: btoaModel r from rfl]
    rw [atobGo.eq_def]
    dsimp only
    rw [if_neg (hne _ (by omega)), if_neg (hne _ (by omega))]
    rw [hv _ (by omega), hv _ (by omega), hv _ (by omega), hv _ (by omega)]
    dsimp only
    rw [atobGo_btoa r (fun b hb => h b (by simp [hb]))]
    dsimp only
    rw [show b1 / 4 * 4 + (b1 % 4 * 16 + b2 / 16) / 16 = b1 from by omega,
      show (b1 % 4 * 16 + b2 / 16) % 16 * 16 + (b2 % 16 * 4 + b3 / 64) / 4 = b2 from by
        omega,
      show (b2 % 16 * 4 + b3 / 64) % 4 * 64 + b3 % 64 = b3 from by omega]

theorem atobModel_btoa (s : List Char) (h : ∀ c ∈ s, c.toNat < 256) :
    atobModel (btoaModel (s.map Char.toNat)) = some s := by
  have hb : ∀ b ∈ s.map Char.toNat, b < 256 := by
    intro b hb
    rcases List.mem_map.mp hb with ⟨c, hc, rfl⟩
    exact h c hc
  unfold atobModel
  rw [List.filter_eq_self.mpr (btoaModel_not_b64Ws _ hb), atobGo_btoa _ hb]
  dsimp only
  have hmap : (s.map Char.toNat).map Char.ofNat = s := by
    rw [List.map_map]
    have : ∀ x ∈ s, (Char.ofNat ∘ Char.toNat) x = x := by
      intro x _
      exact Char.ofNat_toNat x
    calc s.map (Char.ofNat ∘ Char.toNat) = s.map id := List.map_congr_left this
      _ = s := List.map_id s
  rw [hmap]

/-- Characters that can begin a JSON value (for the failure lemmas). -/
def jsonStartChar (c : Char) : Bool :=
  c = '{' || c = '[' || c = '"' || c = 't' || c = 'f' || c = 'n' || c = '-' || c.isDigit

theorem parseValue_badStart (fuel : Nat) (c : Char) (r : List Char)
    (hws : isJsonWs c = false) (hst : jsonStartChar c = false) :
    parseValue (fuel + 1) (c :: r) = none := by
  simp only [jsonStartChar, Bool.or_eq_false_iff, decide_eq_false_iff_not] at hst
  obtain ⟨⟨⟨⟨⟨⟨⟨h1, h2⟩, h3⟩, h4⟩, h5⟩, h6⟩, h7⟩, h8⟩ := hst
  rw [parseValue.eq_def]
  dsimp only
  rw [skipWs_nws c hws]
  dsimp only
  rw [if_neg h1, if_neg h2, if_neg h3, if_neg h4, if_neg h5, if_neg h6, if_neg h7,
    if_neg (by simp [h8])]

theorem parseJson_badStart (c : Char) (r : List Char)
    (hws : isJsonWs c = false) (hst : jsonStartChar c = false) :
    parseJson (c :: r) = none := by
  unfold parseJson
  rw [show (c :: r).length + 1 = r.length + 1 + 1 from by simp,
    parseValue_badStart _ c r hws hst]

theorem splitAtFirst_not_mem (c : Char) : ∀ l : List Char,
    (∀ x ∈ l, ¬ x = c) → splitAtFirst c l = (l, none) := by
  intro l
  induction l with
  | nil => intro _; rfl
  | cons x r ih =>
    intro h
    rw [splitAtFirst.eq_def]
    dsimp only
    rw [if_neg (h x (by simp)), ih (fun y hy => h y (by simp [hy]))]

theorem splitAtFirst_mem (c : Char) : ∀ (pre post : List Char),
    (∀ x ∈ pre, ¬ x = c) → splitAtFirst c (pre ++ c :: post) = (pre, some post) := by
  intro pre
  induction pre with
  | nil =>
    intro post _
    rw [List.nil_append, splitAtFirst.eq_def]
    dsimp only
    rw [if_pos rfl]
  | cons x r ih =>
    intro post h
    rw [List.cons_append, splitAtFirst.eq_def]
    dsimp only
    rw [if_neg (h x (by simp)), ih post (fun y hy => h y (by simp [hy]))]

theorem parseURLQuery_no_colon (l : List Char) (h : ∀ x ∈ l, ¬ x = ':') :
    parseURLQuery l = none := by
  unfold parseURLQuery
  rw [splitAtFirst_not_mem ':' l h]

theorem parseURLQuery_nonalpha (c : Char) (r : List Char)
    (hc : c.isAlpha = false) (hcc : ¬ c = ':') :
    parseURLQuery (c :: r) = none := by
  unfold parseURLQuery
  rw [splitAtFirst.eq_def]
  dsimp only
  rw [if_neg hcc]
  rcases hsp : splitAtFirst ':' r with ⟨a, b⟩
  dsimp only
  cases b with
  | none => rfl
  | some rest =>
    dsimp only
    rw [if_neg (by simp [schemeOk, hc])]

theorem splitOnChar_no (c : Char) : ∀ l : List Char,
    (∀ x ∈ l, ¬ x = c) → splitOnChar c l = [l] := by
  intro l
  induction l with
  | nil => intro _; rfl
  | cons x r ih =>
    intro h
    rw [splitOnChar.eq_def]
    dsimp only
    rw [if_neg (h x (by simp)), ih (fun y hy => h y (by simp [hy]))]

/-- When strategy 1 cannot apply (the input's head starts no JSON value)
and the head survives both replacements, the strategies reduce to the
base64 route. -/
theorem strategies_to_atob (c : Char) (t : List Char)
    (hws : isJsonWs c = false) (hst : jsonStartChar c = false)
    (hplus : ¬ c = '+') (hpct : ¬ c = '%') :
    jsonParseStrategies (c :: t) = strategyAtob (c :: t) := by
  unfold jsonParseStrategies
  rw [parseJson_badStart c t hws hst]
  dsimp only
  rw [show plusTo20 (c :: t) = c :: plusTo20 t from by
    rw [plusTo20.eq_def]
    dsimp only
    rw [if_neg hplus]
    rfl]
  rw [pdStrict_cons_npct hpct]
  cases hd : percentDecodeStrict (plusTo20 t) with
  | none => rfl
  | some cs =>
    dsimp only
    rw [parseJson_badStart c cs hws hst]

theorem printJson_obj_head (l : List (String × Json)) :
    ∃ t, printJson (.obj l) = '{' :: t := by
  cases l with
  | nil => exact ⟨_, rfl⟩
  | cons kv kvs => exact ⟨_, rfl⟩

theorem c7aux_shape1 (l : List (String × Json)) :
    parseQRData (printJson (.obj l)) = some (.obj l) := by
  obtain ⟨t, ht⟩ := printJson_obj_head l
  unfold parseQRData
  rw [ht, parseURLQuery_nonalpha '{' t (by decide) (by decide), ← ht]
  unfold jsonParseStrategies
  rw [parseJson_printJson]

theorem c7aux_shape2 (l : List (String × Json))
    (hascii : ∀ c ∈ printJson (.obj l), c.toNat < 128) :
    parseQRData (percentEncode (printJson (.obj l))) = some (.obj l) := by
  obtain ⟨t, ht⟩ := printJson_obj_head l
  have hsh : percentEncode (printJson (.obj l)) =
      '%' :: '7' :: 'B' :: percentEncode t := by
    rw [ht]
    rfl
  unfold parseQRData
  rw [hsh, parseURLQuery_nonalpha '%' _ (by decide) (by decide), ← hsh]
  unfold jsonParseStrategies
  rw [hsh, parseJson_badStart '%' _ (by decide) (by decide), ← hsh]
  dsimp only
  rw [plusTo20_id _ (percentEncode_not_mem _ hascii '+' (by decide) (by decide))]
  rw [pdStrict_encode _ hascii]
  dsimp only
  rw [parseJson_printJson]

theorem btoaModel_obj_head (bs : List Nat) :
    ∃ t, btoaModel (123 :: bs) = 'e' :: t := by
  cases bs with
  | nil => exact ⟨_, rfl⟩
  | cons b2 bs2 =>
    cases bs2 with
    | nil => exact ⟨_, rfl⟩
    | cons b3 bs3 => exact ⟨_, rfl⟩

theorem c7aux_shape3 (l : List (String × Json))
    (hascii : ∀ c ∈ printJson (.obj l), c.toNat < 128) :
    parseQRData (btoaModel ((printJson (.obj l)).map Char.toNat)) = some (.obj l) := by
  obtain ⟨t, ht⟩ := printJson_obj_head l
  have hb : ∀ b ∈ (printJson (.obj l)).map Char.toNat, b < 256 := by
    intro b hbm
    rcases List.mem_map.mp hbm with ⟨c, hc, rfl⟩
    have := hascii c hc
    omega
  have hmap : (printJson (.obj l)).map Char.toNat =
      123 :: t.map Char.toNat := by
    rw [ht]
    rfl
  obtain ⟨t2, ht2⟩ := btoaModel_obj_head (t.map Char.toNat)
  unfold parseQRData
  rw [parseURLQuery_no_colon _ (by rw [hmap]; exact btoaModel_no_colon _ (hmap ▸ hb))]
  rw [hmap, ht2]
  rw [strategies_to_atob 'e' t2 (by decide) (by decide) (by decide) (by decide)]
  rw [← ht2, ← hmap]
  unfold strategyAtob
  rw [atobModel_btoa _ (fun c hc => by have := hascii c hc; omega)]
  dsimp only
  rw [parseJson_printJson]

/-- The URL form `https://host/path?data=<enc>` of the fourth input
shape. -/
def mkDataURL (host path enc : List Char) : List Char :=
  ('h' :: 't' :: 't' :: 'p' :: 's' :: ':' :: '/' :: '/' :: host) ++
    ('/' :: path) ++ ('?' :: 'd' :: 'a' :: 't' :: 'a' :: '=' :: enc)

theorem c7aux_shape4 (l : List (String × Json)) (host path : List Char)
    (hascii : ∀ c ∈ printJson (.obj l), c.toNat < 128)
    (hplus : '+' ∉ printJson (.obj l))
    (hpct : '%' ∉ printJson (.obj l))
    (hhost : ∀ x ∈ host, ¬ x = '#' ∧ ¬ x = '?')
    (hpath : ∀ x ∈ path, ¬ x = '#' ∧ ¬ x = '?') :
    parseQRData (mkDataURL host path (percentEncode (printJson (.obj l)))) =
      some (.obj l) := by
  have hence : ∀ (y : Char), isUnreservedURI y = false → ¬ y = '%' →
      y ∉ percentEncode (printJson (.obj l)) :=
    fun y h1 h2 => percentEncode_not_mem _ hascii y h1 h2
  have hmem : ∀ x ∈ mkDataURL host path (percentEncode (printJson (.obj l))),
      x ∈ (['h', 't', 't', 'p', 's', ':', '/', '/', '?', 'd', 'a', 't', 'a', '='] : List Char) ∨
        x ∈ host ∨ x ∈ path ∨ x ∈ percentEncode (printJson (.obj l)) := by
    intro x hx
    unfold mkDataURL at hx
    rcases List.mem_append.mp hx with h | h
    · rcases List.mem_append.mp h with h2 | h2
      · rcases List.mem_append.mp
          (show x ∈ (['h', 't', 't', 'p', 's', ':', '/', '/'] : List Char) ++ host from h2) with
          h3 | h3
        · left
          fin_cases h3 <;> decide
        · exact Or.inr (Or.inl h3)
      · rcases List.mem_cons.mp h2 with h3 | h3
        · left
          rw [h3]
          decide
        · exact Or.inr (Or.inr (Or.inl h3))
    · rcases List.mem_append.mp
        (show x ∈ (['?', 'd', 'a', 't', 'a', '='] : List Char) ++
          percentEncode (printJson (.obj l)) from h) with h3 | h3
      · left
        fin_cases h3 <;> decide
      · exact Or.inr (Or.inr (Or.inr h3))
  have hno_hash : ∀ x ∈ mkDataURL host path (percentEncode (printJson (.obj l))),
      ¬ x = '#' := by
    intro x hx he
    subst he
    rcases hmem _ hx with h | h | h | h
    · exact absurd h (by decide)
    · exact (hhost _ h).1 rfl
    · exact (hpath _ h).1 rfl
    · exact hence '#' (by decide) (by decide) h
  have hcolon : splitAtFirst ':' (mkDataURL host path (percentEncode (printJson (.obj l)))) =
      (['h', 't', 't', 'p', 's'],
        some ('/' :: '/' :: (host ++ '/' :: path ++
          '?' :: 'd' :: 'a' :: 't' :: 'a' :: '=' :: percentEncode (printJson (.obj l))))) := by
    have hform : mkDataURL host path (percentEncode (printJson (.obj l))) =
        ['h', 't', 't', 'p', 's'] ++ ':' :: ('/' :: '/' :: (host ++ '/' :: path ++
          '?' :: 'd' :: 'a' :: 't' :: 'a' :: '=' :: percentEncode (printJson (.obj l)))) := by
      simp [mkDataURL]
    rw [hform]
    exact splitAtFirst_mem ':' _ _ (by decide)
  have hqform : mkDataURL host path (percentEncode (printJson (.obj l))) =
      (['h', 't', 't', 'p', 's', ':', '/', '/'] ++ host ++ '/' :: path) ++
        '?' :: ('d' :: 'a' :: 't' :: 'a' :: '=' :: percentEncode (printJson (.obj l))) := by
    simp [mkDataURL]
  have hno_qm_pre : ∀ x ∈ (['h', 't', 't', 'p', 's', ':', '/', '/'] ++ host ++ '/' :: path),
      ¬ x = '?' := by
    intro x hx he
    subst he
    rcases List.mem_append.mp hx with h | h
    · rcases List.mem_append.mp h with h2 | h2
      · exact absurd h2 (by decide)
      · exact (hhost _ h2).2 rfl
    · rcases List.mem_cons.mp h with h2 | h2
      · exact absurd h2 (by decide)
      · exact (hpath _ h2).2 rfl
  have hq : parseURLQuery (mkDataURL host path (percentEncode (printJson (.obj l)))) =
      some ('d' :: 'a' :: 't' :: 'a' :: '=' :: percentEncode (printJson (.obj l))) := by
    unfold parseURLQuery
    rw [hcolon]
    dsimp only
    rw [if_pos (show schemeOk ['h', 't', 't', 'p', 's'] = true by decide)]
    rw [splitAtFirst_not_mem '#' _ hno_hash]
    dsimp only
    rw [hqform, splitAtFirst_mem '?' _ _ hno_qm_pre]
  have hamp : ∀ x ∈ ('d' :: 'a' :: 't' :: 'a' :: '=' :: percentEncode (printJson (.obj l))),
      ¬ x = '&' := by
    intro x hx he
    subst he
    rcases List.mem_append.mp
      (show ('&' : Char) ∈ (['d', 'a', 't', 'a', '='] : List Char) ++
        percentEncode (printJson (.obj l)) from hx) with h | h
    · exact absurd h (by decide)
    · exact hence '&' (by decide) (by decide) h
  have hgc : getQueryParam
      ('d' :: 'a' :: 't' :: 'a' :: '=' :: percentEncode (printJson (.obj l)))
      ['d', 'a', 't', 'a'] = some (printJson (.obj l)) := by
    unfold getQueryParam
    rw [splitOnChar_no '&' _ hamp]
    dsimp only [List.findSome?]
    rw [show splitAtFirst '=' ('d' :: 'a' :: 't' :: 'a' :: '=' ::
        percentEncode (printJson (.obj l))) =
        (['d', 'a', 't', 'a'], some (percentEncode (printJson (.obj l)))) from
      splitAtFirst_mem '=' ['d', 'a', 't', 'a'] _ (by decide)]
    dsimp only
    rw [if_pos (show formDecode ['d', 'a', 't', 'a'] = ['d', 'a', 't', 'a'] by decide)]
    rw [formDecode_encode _ hascii]
  have hPne : ¬ printJson (.obj l) = [] := by
    obtain ⟨t, ht⟩ := printJson_obj_head l
    rw [ht]
    simp
  have hgp : getPayloadParam
      ('d' :: 'a' :: 't' :: 'a' :: '=' :: percentEncode (printJson (.obj l))) =
      some (printJson (.obj l)) := by
    unfold getPayloadParam
    rw [hgc]
    dsimp only [orFalsy]
    rw [if_neg hPne]
    dsimp only
    rw [if_neg hPne]
  unfold parseQRData
  rw [hq]
  dsimp only
  rw [hgp]
  dsimp only
  rw [plusTo20_id _ hplus, pdStrict_id _ hpct]
  dsimp only
  rw [parseJson_printJson]

/-- C7 (amended): `parseQRData` recovers the original JSON object from
the raw JSON text, its URL-encoding, and its base64-encoding, for any
object whose printed form is ASCII; it also recovers it from a URL
`https://host/path?data=<urlencoded-json>` provided the printed JSON
contains no `+` and no `%` (the code form-decodes the query value and
then percent-decodes it a second time after rewriting `+` to `%20`, so
those characters are corrupted); the spec's example URL yields the
object with name "A"; and an input no strategy can parse yields the
thrown parse failure, modelled as `none`. -/
theorem c7_decoder_coverage (l : List (String × Json)) (host path : List Char)
    (hascii : ∀ c ∈ printJson (.obj l), c.toNat < 128)
    (hplus : '+' ∉ printJson (.obj l))
    (hpct : '%' ∉ printJson (.obj l))
    (hhost : ∀ x ∈ host, ¬ x = '#' ∧ ¬ x = '?')
    (hpath : ∀ x ∈ path, ¬ x = '#' ∧ ¬ x = '?') :
    parseQRData (printJson (.obj l)) = some (.obj l) ∧
    parseQRData (percentEncode (printJson (.obj l))) = some (.obj l) ∧
    parseQRData (btoaModel ((printJson (.obj l)).map Char.toNat)) = some (.obj l) ∧
    parseQRData (mkDataURL host path (percentEncode (printJson (.obj l)))) =
      some (.obj l) ∧
    parseQRData ("https://x/qr?data=%7B%22name%22%3A%22A%22%7D").data =
      some (.obj [("name", .str "A")]) ∧
    parseQRData ("not json at all!!").data = none :=
  ⟨c7aux_shape1 l, c7aux_shape2 l hascii, c7aux_shape3 l hascii,
    c7aux_shape4 l host path hascii hplus hpct hhost hpath, rfl, rfl⟩

theorem c7_decoder_coverage_witness :
    (∀ c ∈ printJson (.obj [("name", Json.str "A")]), c.toNat < 128) ∧
    parseQRData (printJson (.obj [("name", Json.str "A")])) =
      some (.obj [("name", Json.str "A")]) ∧
    parseQRData (percentEncode (printJson (.obj [("name", Json.str "A")]))) =
      some (.obj [("name", Json.str "A")]) ∧
    parseQRData (btoaModel ((printJson (.obj [("name", Json.str "A")])).map Char.toNat)) =
      some (.obj [("name", Json.str "A")]) ∧
    parseQRData (mkDataURL ['x'] ['q', 'r']
        (percentEncode (printJson (.obj [("name", Json.str "A")])))) =
      some (.obj [("name", Json.str "A")]) :=
  ⟨by decide,
    (c7_decoder_coverage [("name", Json.str "A")] ['x'] ['q', 'r']
      (by decide) (by decide) (by decide) (by decide) (by decide)).1,
    (c7_decoder_coverage [("name", Json.str "A")] ['x'] ['q', 'r']
      (by decide) (by decide) (by decide) (by decide) (by decide)).2.1,
    (c7_decoder_coverage [("name", Json.str "A")] ['x'] ['q', 'r']
      (by decide) (by decide) (by decide) (by decide) (by decide)).2.2.1,
    (c7_decoder_coverage [("name", Json.str "A")] ['x'] ['q', 'r']
      (by decide) (by decide) (by decide) (by decide) (by decide)).2.2.2.1⟩

/-- C7 counterexample: for the object with "n" mapped to "a+b", the URL
shape `https://x/p?data=<urlencoded-json>` does not recover the object:
the double decode turns the `+` into a space. -/
theorem c7_counterexample :
    percentEncode (printJson (Json.obj [("n", Json.str "a+b")])) =
      ("%7B%22n%22%3A%22a%2Bb%22%7D").data ∧
    parseQRData ("https://x/p?data=%7B%22n%22%3A%22a%2Bb%22%7D").data =
      some (Json.obj [("n", Json.str "a b")]) ∧
    Json.obj [("n", Json.str "a b")] ≠ Json.obj [("n", Json.str "a+b")] :=
  ⟨rfl, rfl, by decide⟩
